import Mathlib

/-!
# A retrieval-augmented-generation pipeline: similarity ranking, chunking, cost and evaluation

Shallow embedding of the pure core of the repository:

* `src/utils.js`: `cosineSimilarity`, `chunkText`, `calculateCost`;
* `src/2-rag-system.js`: the map / sort / slice steps of `retrieveRelevantChunks` and the
  prompt construction of `answerQueryWithDetails`;
* `src/evaluation-system.js`: `RAGEvaluator.evaluateRetrieval`, `runEvaluation` and
  `generateReport`.

JavaScript numbers are modelled over an exact ordered field `α` (no rounding), extended with
`NaN` and the two infinities, so that `0 / 0`, `x * undefined` and `x / 0` behave as in the
language.  Signed zeros are not distinguished.  `Math.sqrt` is a parameter of the definitions
that use it; the theorems instantiate it with the real square root.  Where an integer is
obtained by rounding a sum (`answerQuality`), the computation is also given in binary64
arithmetic (`evaluateRetrievalDouble`), each operation rounded to the nearest double.
-/

set_option linter.unusedSectionVars false

namespace RagSystem

/-! ## JavaScript numbers -/

/-- A JavaScript number: a finite value of the exact field `α`, `Infinity`, `-Infinity` or `NaN`. -/
inductive JSNum (α : Type) where
  | fin (x : α)
  | posInf
  | negInf
  | nan
  deriving DecidableEq, Repr

namespace JSNum

variable {α : Type} [LinearOrderedField α]

/-- The infinity whose sign is that of the comparison: `Infinity` when `pos`, else `-Infinity`. -/
def signedInf (pos : Bool) : JSNum α :=
  if pos then posInf else negInf

/-- The operator `a + b` on numbers. -/
def add : JSNum α → JSNum α → JSNum α
  | fin x, fin y => fin (x + y)
  | fin _, posInf => posInf
  | fin _, negInf => negInf
  | posInf, fin _ => posInf
  | posInf, posInf => posInf
  | posInf, negInf => nan
  | negInf, fin _ => negInf
  | negInf, posInf => nan
  | negInf, negInf => negInf
  | nan, _ => nan
  | _, nan => nan

/-- Unary minus. -/
def neg : JSNum α → JSNum α
  | fin x => fin (-x)
  | posInf => negInf
  | negInf => posInf
  | nan => nan

/-- The operator `a - b` on numbers. -/
def sub (a b : JSNum α) : JSNum α :=
  add a (neg b)

/-- The operator `a * b` on numbers (`Infinity * 0` is `NaN`). -/
def mul : JSNum α → JSNum α → JSNum α
  | fin x, fin y => fin (x * y)
  | fin x, posInf => if x = 0 then nan else signedInf (decide (0 < x))
  | fin x, negInf => if x = 0 then nan else signedInf (decide (x < 0))
  | posInf, fin y => if y = 0 then nan else signedInf (decide (0 < y))
  | negInf, fin y => if y = 0 then nan else signedInf (decide (y < 0))
  | posInf, posInf => posInf
  | posInf, negInf => negInf
  | negInf, posInf => negInf
  | negInf, negInf => posInf
  | nan, _ => nan
  | _, nan => nan

/-- The operator `a / b` on numbers: `0 / 0` is `NaN`, `x / 0` for `x ≠ 0` is an infinity of
the sign of `x`, a finite number over an infinity is `0`, an infinity over an infinity is `NaN`. -/
def div : JSNum α → JSNum α → JSNum α
  | fin x, fin y =>
      if y = 0 then (if x = 0 then nan else signedInf (decide (0 < x))) else fin (x / y)
  | fin _, posInf => fin 0
  | fin _, negInf => fin 0
  | posInf, fin y => signedInf (decide (0 ≤ y))
  | negInf, fin y => signedInf (decide (y < 0))
  | posInf, posInf => nan
  | posInf, negInf => nan
  | negInf, posInf => nan
  | negInf, negInf => nan
  | nan, _ => nan
  | _, nan => nan

/-- The comparison `a < b` on numbers; every comparison with `NaN` is false. -/
def lt : JSNum α → JSNum α → Bool
  | fin x, fin y => decide (x < y)
  | fin _, posInf => true
  | negInf, fin _ => true
  | negInf, posInf => true
  | _, _ => false

/-- The comparison `a >= b` on numbers; every comparison with `NaN` is false. -/
def ge : JSNum α → JSNum α → Bool
  | fin x, fin y => decide (y ≤ x)
  | posInf, fin _ => true
  | posInf, posInf => true
  | posInf, negInf => true
  | fin _, negInf => true
  | negInf, negInf => true
  | _, _ => false

/-- The call `Math.max(a, b)`: `NaN` when an argument is `NaN`. -/
def max : JSNum α → JSNum α → JSNum α
  | nan, _ => nan
  | _, nan => nan
  | a, b => if lt a b then b else a

/-- The call `Math.min(a, b)`: `NaN` when an argument is `NaN`. -/
def min : JSNum α → JSNum α → JSNum α
  | nan, _ => nan
  | _, nan => nan
  | a, b => if lt b a then b else a

/-- The call `Math.round(a)`: the integer nearest to `a`, a half rounded upward. -/
def round [FloorRing α] : JSNum α → JSNum α
  | fin x => fin (⌊x + 1 / 2⌋ : Int)
  | a => a

/-- The expression `a || 0` on a number: `0` when `a` is `0` or `NaN`. -/
def orZero : JSNum α → JSNum α
  | nan => fin 0
  | a => a

end JSNum

/-! ## `cosineSimilarity` (src/utils.js) -/

section Cosine

variable {α : Type} [LinearOrderedField α]

/-- The element read `vec[i]` used as a number: `undefined` (index out of range) converts to
`NaN` in arithmetic. -/
def elemAt (vec : List α) (i : Nat) : JSNum α :=
  match vec[i]? with
  | some x => JSNum.fin x
  | none => JSNum.nan

/-- The callback form `xs.reduce((acc, val, i) => f(acc, val, i), init)`, with the running
index starting at `i`. -/
def reduceIdx {β γ : Type} (f : γ → β → Nat → γ) : Nat → γ → List β → γ
  | _, acc, [] => acc
  | i, acc, x :: xs => reduceIdx f (i + 1) (f acc x i) xs

/-- The callback of the first reduction of `cosineSimilarity`:
`(acc, val, i) => acc + val * vecB[i]`. -/
def dotStep (vecB : List α) (acc : JSNum α) (val : α) (i : Nat) : JSNum α :=
  JSNum.add acc (JSNum.mul (JSNum.fin val) (elemAt vecB i))

/-- The first line of `cosineSimilarity`:
`vecA.reduce((acc, val, i) => acc + val * vecB[i], 0)`. -/
def dotProduct (vecA vecB : List α) : JSNum α :=
  reduceIdx (dotStep vecB) 0 (JSNum.fin 0) vecA

/-- The sum under the square root: `vec.reduce((acc, val) => acc + val * val, 0)`. -/
def sumSquares (vec : List α) : α :=
  vec.foldl (fun acc val => acc + val * val) 0

/-- The function `cosineSimilarity(vecA, vecB)` of `src/utils.js`:
`dotProduct / (magnitudeA * magnitudeB)`, with no check on the lengths or the magnitudes. -/
def cosineSimilarity (sqrt : α → α) (vecA vecB : List α) : JSNum α :=
  let dot := dotProduct vecA vecB
  let magnitudeA := sqrt (sumSquares vecA)
  let magnitudeB := sqrt (sumSquares vecB)
  JSNum.div dot (JSNum.fin (magnitudeA * magnitudeB))

end Cosine

/-! ## `retrieveRelevantChunks` (src/2-rag-system.js) -/

section Retrieval

variable {α : Type} [LinearOrderedField α]

/-- A record of the persisted index, as written by `createKnowledgeBaseIndex`:
`{ id, filename, text, embedding }`. -/
structure IndexRecord (α : Type) where
  id : String
  filename : String
  text : String
  embedding : List α

/-- A record of the index with its score: `{ ...item, similarityScore }`. -/
structure ScoredChunk (α : Type) extends IndexRecord α where
  similarityScore : JSNum α

/-- The relative index of `Array.prototype.slice` for an integer argument `k` on an array of
length `len`: a negative `k` counts from the end, and the result is clamped to `[0, len]`. -/
def relIndex (len : Nat) (k : Int) : Nat :=
  if k < 0 then ((len : Int) + k).toNat else min k.toNat len

/-- The method `xs.slice(start, stop)` with integer arguments. -/
def slice {β : Type} (xs : List β) (start stop : Int) : List β :=
  let first := relIndex xs.length start
  let final := relIndex xs.length stop
  (xs.drop first).take (final - first)

/-- The order test of `Array.prototype.sort(compareFn)`: `a` stays before `b` unless
`compareFn(a, b) > 0`; a `NaN` result counts as `0`. -/
def keepsOrder {β : Type} (compareFn : β → β → JSNum α) (a b : β) : Prop :=
  JSNum.lt (JSNum.fin 0) (compareFn a b) = false

instance keepsOrderDecidable {β : Type} (compareFn : β → β → JSNum α) :
    DecidableRel (keepsOrder compareFn) :=
  fun a b => inferInstanceAs (Decidable (JSNum.lt (JSNum.fin 0) (compareFn a b) = false))

/-- The method `xs.sort(compareFn)`, a stable sort, as a stable insertion sort.  For a
comparator that is a consistent ordering every stable sort returns this list; for the others
the language leaves the order to the implementation. -/
def jsSort {β : Type} (compareFn : β → β → JSNum α) (xs : List β) : List β :=
  xs.insertionSort (keepsOrder compareFn)

/-- The comparator of step 4: `(a, b) => b.similarityScore - a.similarityScore`. -/
def byScoreDesc (a b : ScoredChunk α) : JSNum α :=
  JSNum.sub b.similarityScore a.similarityScore

/-- Step 3 of `retrieveRelevantChunks`: every record of the index with its score against the
query embedding. -/
def scoreChunks (sqrt : α → α) (index : List (IndexRecord α)) (queryEmbedding : List α) :
    List (ScoredChunk α) :=
  index.map fun item =>
    { toIndexRecord := item
      similarityScore := cosineSimilarity sqrt queryEmbedding item.embedding }

/-- Steps 3 to 5 of `retrieveRelevantChunks(query, topK)`: `index` is the array that step 1
loads and `queryEmbedding` the vector that step 2 obtains for the query. -/
def retrieveRelevantChunks (sqrt : α → α) (index : List (IndexRecord α))
    (queryEmbedding : List α) (topK : Int) : List (ScoredChunk α) :=
  let similarChunks := scoreChunks sqrt index queryEmbedding
  let sorted := jsSort byScoreDesc similarChunks
  slice sorted 0 topK

end Retrieval

/-! ### Sample index records -/

/-- A record whose embedding is the unit vector `[0, 1]`. -/
def recA : IndexRecord ℝ := ⟨"a.txt-chunk-0", "a.txt", "alpha", [0, 1]⟩

/-- A record whose embedding is the zero vector. -/
def recB : IndexRecord ℝ := ⟨"b.txt-chunk-0", "b.txt", "beta", [0, 0]⟩

/-- A record whose embedding is the unit vector `[1, 0]`. -/
def recC : IndexRecord ℝ := ⟨"c.txt-chunk-0", "c.txt", "gamma", [1, 0]⟩

/-! ## `chunkText` (src/utils.js) -/

section Chunking

/-- The characters matched by `\s` in a regular expression and removed by `trim`: the
WhiteSpace and LineTerminator code points of the language. -/
def isWhiteSpace (c : Char) : Bool :=
  let n := c.toNat
  n = 0x09 || n = 0x0A || n = 0x0B || n = 0x0C || n = 0x0D || n = 0x20 || n = 0xA0 ||
    n = 0x1680 || (0x2000 ≤ n && n ≤ 0x200A) || n = 0x2028 || n = 0x2029 || n = 0x202F ||
    n = 0x205F || n = 0x3000 || n = 0xFEFF

/-- Puts `c` in front of the first token of a token list. -/
def consHead (c : Char) : List (List Char) → List (List Char)
  | [] => [[c]]
  | w :: ws => (c :: w) :: ws

/-- The scan behind `text.split(/\s+/)`: `inRun` tells that the previous character was
whitespace, so that a maximal run of whitespace separates two tokens once. -/
def splitAux : Bool → List Char → List (List Char)
  | _, [] => [[]]
  | inRun, c :: cs =>
    if isWhiteSpace c then
      (if inRun then splitAux true cs else [] :: splitAux true cs)
    else consHead c (splitAux false cs)

/-- The call `text.split(/\s+/)`: the tokens between the maximal runs of whitespace; the first
token is empty when the text starts with whitespace, the last one when it ends with
whitespace, and the empty text has the single token `""`. -/
def splitWhitespace (text : List Char) : List (List Char) :=
  splitAux false text

/-- The call `tokens.join(" ")`. -/
def joinSpace : List (List Char) → List Char
  | [] => []
  | [t] => t
  | t :: rest => t ++ ' ' :: joinSpace rest

/-- The call `s.trim()`. -/
def trim (s : List Char) : List Char :=
  (s.dropWhile isWhiteSpace).rdropWhile isWhiteSpace

/-- The body of the loop of `chunkText` at index `i`: the chunks after the iteration. -/
def chunkStep (words : List (List Char)) (chunkSize : Int) (i : Int)
    (chunks : List (List Char)) : List (List Char) :=
  let chunk := joinSpace (slice words i (i + chunkSize))
  if (trim chunk).length > 0 then chunks ++ [trim chunk] else chunks

/-- The loop `for (let i = 0; i < words.length; i += chunkSize - overlap)` of `chunkText`,
started at index `i` with the chunks pushed so far, run for at most `fuel` iterations:
`some chunks` when the loop condition fails within them, `none` when it is still true after
them. -/
def chunkLoop (words : List (List Char)) (chunkSize overlap : Int) :
    Nat → Int → List (List Char) → Option (List (List Char))
  | 0, i, chunks => if i < words.length then none else some chunks
  | fuel + 1, i, chunks =>
    if i < words.length then
      chunkLoop words chunkSize overlap fuel (i + (chunkSize - overlap))
        (chunkStep words chunkSize i chunks)
    else some chunks

/-- The function `chunkText(text, chunkSize, overlap)` of `src/utils.js`, run for at most
`fuel` iterations of its loop.  There is no check of the arguments before the loop. -/
def chunkText (text : List Char) (chunkSize overlap : Int) (fuel : Nat) :
    Option (List (List Char)) :=
  chunkLoop (splitWhitespace text) chunkSize overlap fuel 0 []

/-- The non-empty tokens of a token list. -/
def keepWords (tokens : List (List Char)) : List (List Char) :=
  tokens.filter (fun t => !t.isEmpty)

/-- The whitespace-delimited words of a text: its non-empty tokens. -/
def wordsOf (text : List Char) : List (List Char) :=
  keepWords (splitWhitespace text)

/-- Every token but possibly the last is non-empty. -/
def InnerNonempty (ts : List (List Char)) : Prop :=
  ∀ t ∈ ts.dropLast, t ≠ []

/-- A list of tokens without whitespace characters. -/
def WsFree (ts : List (List Char)) : Prop :=
  ∀ t ∈ ts, ∀ c ∈ t, isWhiteSpace c = false

/-- The windows that a sliding loop with window length `size` and step `step` takes from the
remaining tokens `xs`, at most `fuel` of them. -/
def windowsFrom {β : Type} (size step : Nat) : Nat → List β → List (List β)
  | 0, _ => []
  | fuel + 1, xs =>
    match xs with
    | [] => []
    | _ :: _ => xs.take size :: windowsFrom size step fuel (xs.drop step)

/-- The chunks pushed for a list of windows: each window joined and trimmed, the empty results
left out. -/
def renderWindows (windows : List (List (List Char))) : List (List Char) :=
  (windows.map fun w => trim (joinSpace w)).filter fun c => decide (0 < c.length)

/-- Every whitespace character of the text is a space that is not followed by another
whitespace character: the whitespace runs of the text are single spaces. -/
def singleSpaced : List Char → Bool
  | [] => true
  | [c] => !isWhiteSpace c || c == ' '
  | c :: d :: rest =>
    (!isWhiteSpace c || (c == ' ' && !isWhiteSpace d)) && singleSpaced (d :: rest)

/-- The overlap relation between the word lists of two consecutive chunks: when the later one
has at least `o` words, the last `o` words of the earlier one are its first `o` words. -/
def OverlapBy (o : Nat) (c d : List (List Char)) : Prop :=
  o ≤ d.length → c.drop (c.length - o) = d.take o

end Chunking

/-! ## `calculateCost` (src/utils.js) -/

section Cost

/-- The `usage` record of a completion: token counts reported by the provider. -/
structure Usage where
  prompt_tokens : ℚ
  completion_tokens : ℚ
  total_tokens : ℚ

/-- The value of a property read `pricing[model]` on the object literal `pricing`. -/
inductive PriceLookup where
  /-- An own property of the table: a record `{ input, output }`. -/
  | entry (input output : ℚ)
  /-- A property inherited from `Object.prototype`: a function or object without `input` and
  `output` fields. -/
  | inherited
  /-- No such property: `undefined`. -/
  | undefined
  deriving DecidableEq, Repr

/-- The names of the properties that an object literal inherits from `Object.prototype`. -/
def objectPrototypeKeys : List String :=
  ["constructor", "__defineGetter__", "__defineSetter__", "hasOwnProperty",
    "__lookupGetter__", "__lookupSetter__", "isPrototypeOf", "propertyIsEnumerable",
    "toString", "valueOf", "__proto__", "toLocaleString"]

/-- The read `pricing[model]` on the table
`{ "gpt-3.5-turbo": { input: 0.0015, output: 0.002 },
   "text-embedding-3-small": { input: 0.00002, output: 0 } }`. -/
def pricing (model : String) : PriceLookup :=
  if model = "gpt-3.5-turbo" then PriceLookup.entry 0.0015 0.002
  else if model = "text-embedding-3-small" then PriceLookup.entry 0.00002 0
  else if model ∈ objectPrototypeKeys then PriceLookup.inherited
  else PriceLookup.undefined

/-- The truth value of a looked-up property: only `undefined` is falsy. -/
def PriceLookup.truthy : PriceLookup → Bool
  | PriceLookup.undefined => false
  | _ => true

/-- The read `.input` used as a number: `undefined` (no such field) converts to `NaN`. -/
def PriceLookup.inputPrice : PriceLookup → JSNum ℚ
  | PriceLookup.entry input _ => JSNum.fin input
  | _ => JSNum.nan

/-- The read `.output` used as a number: `undefined` (no such field) converts to `NaN`. -/
def PriceLookup.outputPrice : PriceLookup → JSNum ℚ
  | PriceLookup.entry _ output => JSNum.fin output
  | _ => JSNum.nan

/-- The function `calculateCost(usage, model)` of `src/utils.js`. -/
def calculateCost (usage : Usage) (model : String) : JSNum ℚ :=
  if !(pricing model).truthy then JSNum.fin 0
  else
    let inputCost :=
      JSNum.mul (JSNum.div (JSNum.fin usage.prompt_tokens) (JSNum.fin 1000))
        (pricing model).inputPrice
    let outputCost :=
      JSNum.mul (JSNum.div (JSNum.fin usage.completion_tokens) (JSNum.fin 1000))
        (pricing model).outputPrice
    JSNum.add inputCost outputCost

end Cost

/-! ## `answerQueryWithDetails` (src/2-rag-system.js) -/

section Answering

variable {α : Type} [LinearOrderedField α]

/-- A chat message `{ role, content }`. -/
structure Message where
  role : String
  content : String
  deriving DecidableEq, Repr

/-- The value that `getChatCompletion` returns on success: `{ content, usage, model }`. -/
structure Completion where
  content : String
  usage : Usage
  model : String

/-- The record returned by `answerQueryWithDetails`: `{ answer, sources, usage, cost }`. -/
structure QueryResult (α : Type) where
  answer : String
  sources : List (ScoredChunk α)
  usage : Usage
  cost : JSNum ℚ

/-- The callback form `xs.map((x, index) => f(x, index))`, with the running index starting at
`i`. -/
def mapWithIndex {β γ : Type} (f : β → Nat → γ) : Nat → List β → List γ
  | _, [] => []
  | i, x :: xs => f x i :: mapWithIndex f (i + 1) xs

/-- The call `parts.join(sep)` on an array of strings. -/
def joinWith (sep : String) : List String → String
  | [] => ""
  | [s] => s
  | s :: rest => s ++ sep ++ joinWith sep rest

/-- The template of one source block: the chunk at array index `index` is cited as
`index + 1`. -/
def sourceBlock (chunk : ScoredChunk α) (index : Nat) : String :=
  "[Source " ++ toString (index + 1) ++ ": " ++ chunk.filename ++ "]\n" ++ chunk.text

/-- The separator between two source blocks. -/
def contextSeparator : String := "\n\n---\n\n"

/-- Step 2 of `answerQueryWithDetails`: the context block of the prompt. -/
def buildContext (relevantChunks : List (ScoredChunk α)) : String :=
  joinWith contextSeparator (mapWithIndex sourceBlock 0 relevantChunks)

/-- The two messages of the prompt. -/
def promptMessages (context question : String) : List Message :=
  [ { role := "system"
      content := "You are a helpful AI assistant. Use the provided context to answer the question. Always cite your sources using the [Source X] format provided in the context. If you use information from multiple sources, mention all relevant sources." },
    { role := "user"
      content := "Context:\n" ++ context ++ "\n\nQuestion: " ++ question
        ++ "\n\nPlease provide a comprehensive answer and cite your sources." } ]

/-- The function `answerQueryWithDetails(question, showSources, showCosts)` without its console
output: `index` and `queryEmbedding` are what the retrieval step loads and obtains, and
`getChatCompletion messages maxTokens` is the awaited completion, `none` when the provider call
failed and `undefined` came back, in which case reading `result.content` throws. -/
def answerQueryWithDetails (sqrt : α → α) (index : List (IndexRecord α))
    (queryEmbedding : List α) (getChatCompletion : List Message → Nat → Option Completion)
    (question : String) : Except String (QueryResult α) :=
  let relevantChunks := retrieveRelevantChunks sqrt index queryEmbedding 3
  let context := buildContext relevantChunks
  let messages := promptMessages context question
  match getChatCompletion messages 800 with
  | none => Except.error "TypeError: Cannot read properties of undefined (reading 'content')"
  | some result =>
    Except.ok
      { answer := result.content
        sources := relevantChunks
        usage := result.usage
        cost := calculateCost result.usage result.model }

end Answering

/-! ## `RAGEvaluator.evaluateRetrieval` (src/evaluation-system.js) -/

section Evaluation

variable {α : Type} [LinearOrderedField α] [FloorRing α]

/-- A test question with its expected sources and keywords. -/
structure TestCase where
  id : Nat
  question : String
  expectedSources : List String
  expectedKeywords : List String

/-- The record returned by `evaluateRetrieval`. -/
structure Evaluation (α : Type) where
  retrievalAccuracy : JSNum α
  keywordCoverage : JSNum α
  answerQuality : JSNum α
  topSourceRelevance : JSNum α
  expectedSourcesFound : Nat
  keywordsFound : Nat

/-- The call `haystack.includes(needle)` on strings. -/
def includesString (haystack needle : String) : Bool :=
  decide (needle.data <:+: haystack.data)

/-- The score `retrievedChunks[0]?.similarityScore` used as a number: `undefined` when there is
no chunk. -/
def topScore (retrievedChunks : List (ScoredChunk α)) : JSNum α :=
  match retrievedChunks with
  | [] => JSNum.nan
  | chunk :: _ => chunk.similarityScore

/-- The method `evaluateRetrieval(test, retrievedChunks, answer)` over an exact field;
`toLowerCase` stands for `String.prototype.toLowerCase`.  The metrics are the exact values of
the expressions of the source; `evaluateRetrievalDouble` is the same method with every result
rounded to a double, which is what decides the integer `answerQuality` at a half. -/
def evaluateRetrieval (toLowerCase : String → String) (test : TestCase)
    (retrievedChunks : List (ScoredChunk α)) (answer : String) : Evaluation α :=
  let retrievedSources := retrievedChunks.map fun chunk => chunk.filename
  let expectedFound :=
    (test.expectedSources.filter fun source => retrievedSources.contains source).length
  let retrievalAccuracy :=
    JSNum.mul
      (JSNum.div (JSNum.fin (expectedFound : α)) (JSNum.fin (test.expectedSources.length : α)))
      (JSNum.fin 100)
  let answerLower := toLowerCase answer
  let keywordsFound :=
    (test.expectedKeywords.filter fun keyword =>
      includesString answerLower (toLowerCase keyword)).length
  let keywordRatio :=
    JSNum.div (JSNum.fin (keywordsFound : α)) (JSNum.fin (test.expectedKeywords.length : α))
  let answerQuality :=
    JSNum.min (JSNum.fin 5)
      (JSNum.max (JSNum.fin 1)
        (JSNum.round
          (JSNum.add (JSNum.mul keywordRatio (JSNum.fin 3))
            (JSNum.mul (JSNum.div retrievalAccuracy (JSNum.fin 100)) (JSNum.fin 2)))))
  { retrievalAccuracy := retrievalAccuracy
    keywordCoverage := JSNum.mul keywordRatio (JSNum.fin 100)
    answerQuality := answerQuality
    topSourceRelevance := JSNum.orZero (topScore retrievedChunks)
    expectedSourcesFound := expectedFound
    keywordsFound := keywordsFound }

end Evaluation

/-! ## `RAGEvaluator.runEvaluation` and `generateReport` (src/evaluation-system.js) -/

section Evaluator

variable {α : Type} [LinearOrderedField α] [FloorRing α]

/-- A record pushed to `this.results`:
`{ ...test, retrievedChunks, answer, evaluation, cost, usage }`. -/
structure TestResult (α : Type) where
  test : TestCase
  retrievedChunks : List (ScoredChunk α)
  answer : String
  evaluation : Evaluation α
  cost : JSNum ℚ
  usage : Usage

/-- What the loop of `runEvaluation` writes to the console for a test case: the question
line, then either the lines of a completed case or the error line of the `catch` block. -/
inductive LogEntry where
  | question (id : Nat)
  | completed (id : Nat)
  | error (id : Nat) (message : String)
  deriving DecidableEq, Repr

/-- The two awaited calls of an iteration, as the iteration number and the question determine
them: each either throws (`Except.error`) or returns a value. -/
structure Providers (α : Type) where
  retrieveRelevantChunks : Nat → String → Except String (List (ScoredChunk α))
  answerQueryWithDetails : Nat → String → Except String (QueryResult α)

/-- The state of the evaluator during `runEvaluation`: `this.results` and the console. -/
structure EvaluatorState (α : Type) where
  results : List (TestResult α)
  log : List LogEntry

/-- One iteration of the loop of `runEvaluation`: the `try` block pushes a record when both
calls return, the `catch` block writes the error and pushes nothing. -/
def evaluationStep (providers : Providers α) (toLowerCase : String → String)
    (state : EvaluatorState α) (test : TestCase) (i : Nat) : EvaluatorState α :=
  let log := state.log ++ [LogEntry.question test.id]
  match providers.retrieveRelevantChunks i test.question with
  | Except.error e => { results := state.results, log := log ++ [LogEntry.error test.id e] }
  | Except.ok chunks =>
    match providers.answerQueryWithDetails i test.question with
    | Except.error e => { results := state.results, log := log ++ [LogEntry.error test.id e] }
    | Except.ok result =>
      { results := state.results ++
          [{ test := test
             retrievedChunks := chunks
             answer := result.answer
             evaluation := evaluateRetrieval toLowerCase test chunks result.answer
             cost := result.cost
             usage := result.usage }]
        log := log ++ [LogEntry.completed test.id] }

/-- The loop `for (const test of testQuestions)` of `runEvaluation`, on a fresh evaluator. -/
def evaluationLoop (providers : Providers α) (toLowerCase : String → String)
    (tests : List TestCase) : EvaluatorState α :=
  reduceIdx (evaluationStep providers toLowerCase) 0 { results := [], log := [] } tests

/-- The call `xs.reduce(f)` without an initial value: it throws on an empty array. -/
def reduceNoInitial {β : Type} (f : β → β → β) : List β → Except String β
  | [] => Except.error "TypeError: Reduce of empty array with no initial value"
  | x :: xs => Except.ok (xs.foldl f x)

/-- The mean `results.reduce((sum, r) => sum + metric(r), 0) / results.length`. -/
def average {β : Type} (metric : β → JSNum α) (results : List β) : JSNum α :=
  JSNum.div (results.foldl (fun sum r => JSNum.add sum (metric r)) (JSNum.fin 0))
    (JSNum.fin (results.length : α))

/-- The values that `generateReport` computes and prints. -/
structure Report (α : Type) where
  avgRetrievalAccuracy : JSNum α
  avgAnswerQuality : JSNum α
  avgKeywordCoverage : JSNum α
  avgTopSourceRelevance : JSNum α
  totalCost : JSNum ℚ
  totalTokens : ℚ
  bestResult : TestResult α
  worstResult : TestResult α

/-- The method `generateReport()`: the means and totals, then the best and the worst result by
two `reduce` calls without an initial value.  The per-source breakdown printed at the end reads
`retrievedChunks` only, raises no error and is not part of the record. -/
def generateReport (results : List (TestResult α)) : Except String (Report α) :=
  let avgRetrievalAccuracy := average (fun r => r.evaluation.retrievalAccuracy) results
  let avgAnswerQuality := average (fun r => r.evaluation.answerQuality) results
  let avgKeywordCoverage := average (fun r => r.evaluation.keywordCoverage) results
  let avgTopSourceRelevance := average (fun r => r.evaluation.topSourceRelevance) results
  let totalCost := results.foldl (fun sum r => JSNum.add sum r.cost) (JSNum.fin 0)
  let totalTokens := results.foldl (fun sum r => sum + r.usage.total_tokens) 0
  match reduceNoInitial (fun best current =>
      if JSNum.lt best.evaluation.retrievalAccuracy current.evaluation.retrievalAccuracy
      then current else best) results with
  | Except.error e => Except.error e
  | Except.ok bestResult =>
    match reduceNoInitial (fun worst current =>
        if JSNum.lt current.evaluation.retrievalAccuracy worst.evaluation.retrievalAccuracy
        then current else worst) results with
    | Except.error e => Except.error e
    | Except.ok worstResult =>
      Except.ok
        { avgRetrievalAccuracy := avgRetrievalAccuracy
          avgAnswerQuality := avgAnswerQuality
          avgKeywordCoverage := avgKeywordCoverage
          avgTopSourceRelevance := avgTopSourceRelevance
          totalCost := totalCost
          totalTokens := totalTokens
          bestResult := bestResult
          worstResult := worstResult }

/-- The method `runEvaluation()` on the test cases `tests`: the state after the loop, and the
outcome of the call `this.generateReport()` that ends it, an error when that call throws. -/
def runEvaluation (providers : Providers α) (toLowerCase : String → String)
    (tests : List TestCase) : EvaluatorState α × Except String (Report α) :=
  let state := evaluationLoop providers toLowerCase tests
  (state, generateReport state.results)

/-- Whether both calls of iteration `i` return for the test case. -/
def caseSucceeds (providers : Providers α) (i : Nat) (test : TestCase) : Bool :=
  match providers.retrieveRelevantChunks i test.question with
  | Except.error _ => false
  | Except.ok _ =>
    match providers.answerQueryWithDetails i test.question with
    | Except.error _ => false
    | Except.ok _ => true

/-- The identifier of a question line of the console. -/
def LogEntry.questionId : LogEntry → Option Nat
  | LogEntry.question id => some id
  | _ => none

/-- The identifier of an error line of the console. -/
def LogEntry.errorId : LogEntry → Option Nat
  | LogEntry.error id _ => some id
  | _ => none

/-! ### Sample test cases and providers -/

/-- A test case with one expected source and two expected keywords. -/
def sampleTest1 : TestCase := ⟨1, "What is the useState hook?", ["a.txt"], ["state", "array"]⟩

/-- A second test case. -/
def sampleTest2 : TestCase := ⟨2, "How do arrow functions work?", ["b.txt"], ["arrow"]⟩

/-- Providers whose retrieval call throws in every iteration. -/
def failingProviders : Providers ℚ where
  retrieveRelevantChunks := fun _ _ => Except.error "Request failed"
  answerQueryWithDetails := fun _ _ => Except.error "Request failed"

/-- Providers whose retrieval call throws in the first iteration only. -/
def flakyProviders : Providers ℚ where
  retrieveRelevantChunks := fun i _ => if i = 0 then Except.error "Request failed" else Except.ok []
  answerQueryWithDetails := fun _ _ =>
    Except.ok { answer := "arrow functions", sources := [], usage := ⟨10, 5, 15⟩, cost := JSNum.fin 0 }

end Evaluator

/-! ### The answer-quality formula as the specification words it -/

section EvaluationSpec

variable {α : Type} [LinearOrderedField α] [FloorRing α]

/-- The bounding `clamp(v, lo, hi)` of the specification: `v` raised to `lo` and lowered to
`hi`. -/
def JSNum.clamp (v lo hi : JSNum α) : JSNum α :=
  JSNum.min hi (JSNum.max lo v)

/-- The formula of the specification for the answer quality, which clamps first and rounds
afterwards: `round(clamp(keywordCoverage/100 * 3 + retrievalAccuracy/100 * 2, 1, 5))`. -/
def answerQualitySpec (keywordCoverage retrievalAccuracy : JSNum α) : JSNum α :=
  JSNum.round
    (JSNum.clamp
      (JSNum.add (JSNum.mul (JSNum.div keywordCoverage (JSNum.fin 100)) (JSNum.fin 3))
        (JSNum.mul (JSNum.div retrievalAccuracy (JSNum.fin 100)) (JSNum.fin 2)))
      (JSNum.fin 1) (JSNum.fin 5))

end EvaluationSpec

/-! ## Double-precision arithmetic and `evaluateRetrieval` in doubles -/

section Doubles

/-- The integer nearest to `x`, a tie going to the even neighbour. -/
def roundHalfEven (x : ℚ) : ℤ :=
  if x - ⌊x⌋ < 1 / 2 then ⌊x⌋
  else if 1 / 2 < x - ⌊x⌋ then ⌊x⌋ + 1
  else if ⌊x⌋ % 2 = 0 then ⌊x⌋ else ⌊x⌋ + 1

/-- The binary exponent of the double nearest to `q ≠ 0`: the `e` with `2 ^ e ≤ |q| < 2 ^ (e+1)`,
not below the exponent `-1022` of the subnormal numbers. -/
def binaryExponent (q : ℚ) : ℤ :=
  Max.max (Int.log 2 |q|) (-1022)

/-- The rational nearest to `q` among the multiples of the unit in the last place of its
binade (53 significant bits), ties to even: the IEEE 754 binary64 rounding of a result that
does not overflow. -/
def binary64 (q : ℚ) : ℚ :=
  if q = 0 then 0
  else (roundHalfEven (q / (2 : ℚ) ^ (binaryExponent q - 52)) : ℚ) * (2 : ℚ) ^ (binaryExponent q - 52)

/-- The double that an arithmetic result is rounded to: the binary64 rounding of a finite
value, an infinity when that reaches `2 ^ 1024`. -/
def JSNum.toDouble : JSNum ℚ → JSNum ℚ
  | JSNum.fin x =>
    if (2 : ℚ) ^ (1024 : ℕ) ≤ |binary64 x| then JSNum.signedInf (decide (0 < x))
    else JSNum.fin (binary64 x)
  | a => a

/-- A number that is `Infinity` or finite and not negative. -/
def JSNum.NonnegNum (a : JSNum ℚ) : Prop :=
  a = JSNum.posInf ∨ ∃ x : ℚ, 0 ≤ x ∧ a = JSNum.fin x

/-- The operator `a + b` on doubles. -/
def JSNum.addD (a b : JSNum ℚ) : JSNum ℚ :=
  JSNum.toDouble (JSNum.add a b)

/-- The operator `a * b` on doubles. -/
def JSNum.mulD (a b : JSNum ℚ) : JSNum ℚ :=
  JSNum.toDouble (JSNum.mul a b)

/-- The operator `a / b` on doubles. -/
def JSNum.divD (a b : JSNum ℚ) : JSNum ℚ :=
  JSNum.toDouble (JSNum.div a b)

/-- The method `evaluateRetrieval(test, retrievedChunks, answer)` with every arithmetic result
rounded to a double, as the program computes it.  The counts are array lengths, below `2 ^ 32`,
and are doubles as they stand; `Math.round`, `Math.min` and `Math.max` return their exact
results. -/
def evaluateRetrievalDouble (toLowerCase : String → String) (test : TestCase)
    (retrievedChunks : List (ScoredChunk ℚ)) (answer : String) : Evaluation ℚ :=
  let retrievedSources := retrievedChunks.map fun chunk => chunk.filename
  let expectedFound :=
    (test.expectedSources.filter fun source => retrievedSources.contains source).length
  let retrievalAccuracy :=
    JSNum.mulD
      (JSNum.divD (JSNum.fin (expectedFound : ℚ)) (JSNum.fin (test.expectedSources.length : ℚ)))
      (JSNum.fin 100)
  let answerLower := toLowerCase answer
  let keywordsFound :=
    (test.expectedKeywords.filter fun keyword =>
      includesString answerLower (toLowerCase keyword)).length
  let answerQuality :=
    JSNum.min (JSNum.fin 5)
      (JSNum.max (JSNum.fin 1)
        (JSNum.round
          (JSNum.addD
            (JSNum.mulD
              (JSNum.divD (JSNum.fin (keywordsFound : ℚ))
                (JSNum.fin (test.expectedKeywords.length : ℚ)))
              (JSNum.fin 3))
            (JSNum.mulD (JSNum.divD retrievalAccuracy (JSNum.fin 100)) (JSNum.fin 2)))))
  { retrievalAccuracy := retrievalAccuracy
    keywordCoverage :=
      JSNum.mulD
        (JSNum.divD (JSNum.fin (keywordsFound : ℚ))
          (JSNum.fin (test.expectedKeywords.length : ℚ)))
        (JSNum.fin 100)
    answerQuality := answerQuality
    topSourceRelevance := JSNum.orZero (topScore retrievedChunks)
    expectedSourcesFound := expectedFound
    keywordsFound := keywordsFound }

/-- The formula of the specification for the answer quality, evaluated in doubles. -/
def answerQualitySpecDouble (keywordCoverage retrievalAccuracy : JSNum ℚ) : JSNum ℚ :=
  JSNum.round
    (JSNum.clamp
      (JSNum.addD (JSNum.mulD (JSNum.divD keywordCoverage (JSNum.fin 100)) (JSNum.fin 3))
        (JSNum.mulD (JSNum.divD retrievalAccuracy (JSNum.fin 100)) (JSNum.fin 2)))
      (JSNum.fin 1) (JSNum.fin 5))

/-- A test case of which seven of ten keywords and one of five sources will be found. -/
def sevenOfTenTest : TestCase :=
  ⟨1, "q", ["s0.txt", "s1.txt", "s2.txt", "s3.txt", "s4.txt"],
    ["k0", "k1", "k2", "k3", "k4", "k5", "k6", "k7", "k8", "k9"]⟩

/-- A test case of which one of three keywords and one of four sources will be found. -/
def oneOfThreeTest : TestCase :=
  ⟨2, "q", ["s0.txt", "s1.txt", "s2.txt", "s3.txt"], ["k0", "k1", "k2"]⟩

/-- Retrieved chunks of which only the first comes from an expected source. -/
def oneSourceChunks : List (ScoredChunk ℚ) :=
  [⟨⟨"s0.txt-chunk-0", "s0.txt", "alpha", [1]⟩, JSNum.fin 1⟩,
    ⟨⟨"x.txt-chunk-0", "x.txt", "beta", [1]⟩, JSNum.fin 0⟩,
    ⟨⟨"y.txt-chunk-0", "y.txt", "gamma", [1]⟩, JSNum.fin 0⟩]

end Doubles

/-! # Lemmas and theorems -/

/-! ### Facts about the number operations -/

section NumFacts

variable {α : Type} [LinearOrderedField α]

theorem JSNum.add_nan_right (a : JSNum α) : JSNum.add a JSNum.nan = JSNum.nan := by
  cases a <;> rfl

theorem JSNum.add_nan_left (a : JSNum α) : JSNum.add JSNum.nan a = JSNum.nan := by
  cases a <;> rfl

theorem JSNum.mul_nan_right (a : JSNum α) : JSNum.mul a JSNum.nan = JSNum.nan := by
  cases a <;> rfl

theorem JSNum.div_zero_zero : JSNum.div (JSNum.fin (0 : α)) (JSNum.fin 0) = JSNum.nan := by
  simp [JSNum.div]

theorem JSNum.div_fin_of_ne {x y : α} (hy : y ≠ 0) :
    JSNum.div (JSNum.fin x) (JSNum.fin y) = JSNum.fin (x / y) := by
  simp [JSNum.div, hy]

end NumFacts

/-! ### Facts about `dotProduct` and `sumSquares` -/

section CosineFacts

variable {α : Type} [LinearOrderedField α]

theorem dotProduct_eq_reduceIdx (vecA vecB : List α) :
    dotProduct vecA vecB = reduceIdx (dotStep vecB) 0 (JSNum.fin 0) vecA := rfl

theorem reduceIdx_dotStep_nan (vecB : List α) (vecA : List α) (i : Nat) :
    reduceIdx (dotStep vecB) i JSNum.nan vecA = JSNum.nan := by
  induction vecA generalizing i with
  | nil => rfl
  | cons x xs ih =>
    have h : dotStep vecB JSNum.nan x i = JSNum.nan := JSNum.add_nan_left _
    simp only [reduceIdx, h, ih]

theorem elemAt_of_drop_cons {vecB : List α} {i : Nat} {y : α} {rest : List α}
    (h : vecB.drop i = y :: rest) : elemAt vecB i = JSNum.fin y := by
  have h1 : vecB[i]? = some y := by
    have := List.head?_drop vecB i
    rw [h] at this
    simpa using this.symm
  simp [elemAt, h1]

theorem elemAt_of_drop_nil {vecB : List α} {i : Nat}
    (h : vecB.drop i = []) : elemAt vecB i = JSNum.nan := by
  have h1 : vecB[i]? = none := by
    have := List.head?_drop vecB i
    rw [h] at this
    simpa using this.symm
  simp [elemAt, h1]

/-- While the second vector has an element at every index visited, the reduction stays finite
and accumulates the products of the paired components. -/
theorem reduceIdx_dotStep_fin (vecB : List α) (vecA : List α) (i : Nat) (acc : α)
    (hlen : vecA.length ≤ (vecB.drop i).length) :
    reduceIdx (dotStep vecB) i (JSNum.fin acc) vecA
      = JSNum.fin (acc + (List.zipWith (fun x y => x * y) vecA (vecB.drop i)).sum) := by
  induction vecA generalizing i acc with
  | nil => simp [reduceIdx]
  | cons x xs ih =>
    cases hd : vecB.drop i with
    | nil => rw [hd] at hlen; simp at hlen
    | cons y rest =>
      have hrest : vecB.drop (i + 1) = rest := by
        have : vecB.drop (i + 1) = (vecB.drop i).drop 1 := by
          rw [List.drop_drop]
        rw [this, hd]; rfl
      have hstep : dotStep vecB (JSNum.fin acc) x i = JSNum.fin (acc + x * y) := by
        simp [dotStep, elemAt_of_drop_cons hd, JSNum.mul, JSNum.add]
      have hlen2 : xs.length ≤ (vecB.drop (i + 1)).length := by
        rw [hrest]; rw [hd] at hlen; simpa using hlen
      simp only [reduceIdx, hstep]
      rw [ih (i + 1) (acc + x * y) hlen2, hrest]
      simp [add_assoc]

/-- When the first vector runs past the end of the second, an `undefined` component is read
and the reduction ends in `NaN`, whatever the accumulator was. -/
theorem reduceIdx_dotStep_short (vecB : List α) (vecA : List α) (i : Nat) (acc : JSNum α)
    (hlen : (vecB.drop i).length < vecA.length) :
    reduceIdx (dotStep vecB) i acc vecA = JSNum.nan := by
  induction vecA generalizing i acc with
  | nil => simp at hlen
  | cons x xs ih =>
    cases hd : vecB.drop i with
    | nil =>
      have hstep : dotStep vecB acc x i = JSNum.nan := by
        simp [dotStep, elemAt_of_drop_nil hd, JSNum.mul_nan_right, JSNum.add_nan_right]
      simp only [reduceIdx, hstep, reduceIdx_dotStep_nan]
    | cons y rest =>
      have hrest : vecB.drop (i + 1) = rest := by
        have : vecB.drop (i + 1) = (vecB.drop i).drop 1 := by
          rw [List.drop_drop]
        rw [this, hd]; rfl
      have hlen2 : (vecB.drop (i + 1)).length < xs.length := by
        rw [hrest]; rw [hd] at hlen; simpa using hlen
      simp only [reduceIdx]
      exact ih (i + 1) _ hlen2

theorem dotProduct_of_le (vecA vecB : List α) (hlen : vecA.length ≤ vecB.length) :
    dotProduct vecA vecB = JSNum.fin (List.zipWith (fun x y => x * y) vecA vecB).sum := by
  rw [dotProduct_eq_reduceIdx, reduceIdx_dotStep_fin vecB vecA 0 0 (by simpa using hlen)]
  simp

theorem dotProduct_of_gt (vecA vecB : List α) (hlen : vecB.length < vecA.length) :
    dotProduct vecA vecB = JSNum.nan := by
  rw [dotProduct_eq_reduceIdx]
  exact reduceIdx_dotStep_short vecB vecA 0 _ (by simpa using hlen)

theorem sum_zipWith_mul_comm (a b : List α) :
    (List.zipWith (fun x y => x * y) a b).sum = (List.zipWith (fun x y => x * y) b a).sum := by
  induction a generalizing b with
  | nil => cases b <;> simp
  | cons x xs ih =>
    cases b with
    | nil => simp
    | cons y ys => simp [ih ys, mul_comm]

theorem foldl_sq_eq (vec : List α) (acc : α) :
    vec.foldl (fun acc val => acc + val * val) acc = acc + (vec.map (fun x => x * x)).sum := by
  induction vec generalizing acc with
  | nil => simp
  | cons x xs ih => simp [ih, add_assoc]

theorem sumSquares_eq (vec : List α) : sumSquares vec = (vec.map (fun x => x * x)).sum := by
  simp [sumSquares, foldl_sq_eq]

theorem sumSquares_nonneg (vec : List α) : 0 ≤ sumSquares vec := by
  rw [sumSquares_eq]
  apply List.sum_nonneg
  intro y hy
  obtain ⟨x, _, rfl⟩ := List.mem_map.1 hy
  exact mul_self_nonneg x

theorem sumSquares_eq_zero_iff (vec : List α) : sumSquares vec = 0 ↔ ∀ x ∈ vec, x = 0 := by
  rw [sumSquares_eq]
  induction vec with
  | nil => simp
  | cons x xs ih =>
    have hx : 0 ≤ x * x := mul_self_nonneg x
    have hxs : 0 ≤ (xs.map (fun x => x * x)).sum := by
      have := sumSquares_nonneg xs
      rwa [sumSquares_eq] at this
    simp only [List.map_cons, List.sum_cons, List.mem_cons, forall_eq_or_imp]
    constructor
    · intro h
      have h1 : x * x = 0 := by linarith
      have h2 : (xs.map (fun x => x * x)).sum = 0 := by linarith
      exact ⟨by simpa using h1, ih.1 h2⟩
    · rintro ⟨h1, h2⟩
      rw [ih.2 h2, h1]; simp

theorem sum_zipWith_self (vec : List α) :
    (List.zipWith (fun x y => x * y) vec vec).sum = sumSquares vec := by
  rw [sumSquares_eq]
  induction vec with
  | nil => simp
  | cons x xs ih => simp [ih]

theorem sum_zipWith_zero_left (a b : List α) (ha : ∀ x ∈ a, x = 0) :
    (List.zipWith (fun x y => x * y) a b).sum = 0 := by
  induction a generalizing b with
  | nil => simp
  | cons x xs ih =>
    cases b with
    | nil => simp
    | cons y ys =>
      have hx : x = 0 := ha x (by simp)
      have := ih ys (fun z hz => ha z (by simp [hz]))
      simp [hx, this]

end CosineFacts

/-! ### Claims about `cosineSimilarity` -/

section CosineClaims

theorem cosineSimilarity_of_le (sqrt : ℝ → ℝ) (a b : List ℝ) (hlen : a.length ≤ b.length) :
    cosineSimilarity sqrt a b
      = JSNum.div (JSNum.fin (List.zipWith (fun x y => x * y) a b).sum)
          (JSNum.fin (sqrt (sumSquares a) * sqrt (sumSquares b))) := by
  simp [cosineSimilarity, dotProduct_of_le a b hlen]

theorem sqrt_sumSquares_eq_zero_iff (v : List ℝ) :
    Real.sqrt (sumSquares v) = 0 ↔ ∀ x ∈ v, x = 0 := by
  rw [Real.sqrt_eq_zero (sumSquares_nonneg v), sumSquares_eq_zero_iff]

/-- C6 (counterexample): for the zero vector `[0, 0]` against `[1, 2]` the code returns `NaN`,
not `0`. -/
theorem cosineSimilarity_zero_vector_not_zero :
    cosineSimilarity Real.sqrt [0, 0] [1, 2] = JSNum.nan ∧
      cosineSimilarity Real.sqrt [0, 0] [1, 2] ≠ JSNum.fin (0 : ℝ) := by
  have h : cosineSimilarity Real.sqrt [0, 0] [1, 2] = (JSNum.nan : JSNum ℝ) := by
    simp [cosineSimilarity, dotProduct, reduceIdx, dotStep, elemAt, sumSquares, JSNum.mul,
      JSNum.add, JSNum.div]
  exact ⟨h, by rw [h]; exact fun h => JSNum.noConfusion h⟩

/-- C6 (amended): for equal-length vectors of which at least one has zero magnitude, the
division is `0 / 0` and `cosineSimilarity` returns `NaN`. -/
theorem cosineSimilarity_zero_magnitude (a b : List ℝ) (hlen : a.length = b.length)
    (hz : Real.sqrt (sumSquares a) = 0 ∨ Real.sqrt (sumSquares b) = 0) :
    cosineSimilarity Real.sqrt a b = JSNum.nan := by
  rw [cosineSimilarity_of_le Real.sqrt a b hlen.le]
  have hdot : (List.zipWith (fun x y => x * y) a b).sum = 0 := by
    rcases hz with h | h
    · exact sum_zipWith_zero_left a b ((sqrt_sumSquares_eq_zero_iff a).1 h)
    · rw [sum_zipWith_mul_comm]
      exact sum_zipWith_zero_left b a ((sqrt_sumSquares_eq_zero_iff b).1 h)
  have hden : Real.sqrt (sumSquares a) * Real.sqrt (sumSquares b) = 0 := by
    rcases hz with h | h <;> simp [h]
  rw [hdot, hden, JSNum.div_zero_zero]

/-- Witness for C6: the zero vector `[0, 0]` against `[3, 4]`. -/
theorem cosineSimilarity_zero_magnitude_witness :
    cosineSimilarity Real.sqrt [0, 0] [3, 4] = (JSNum.nan : JSNum ℝ) :=
  cosineSimilarity_zero_magnitude [0, 0] [3, 4] rfl
    (Or.inl ((sqrt_sumSquares_eq_zero_iff [0, 0]).2 (by simp)))

/-- C7: over exact real arithmetic `cosineSimilarity` is symmetric on vectors of equal length,
and the similarity of a vector with a nonzero component to itself is `1`. -/
theorem cosineSimilarity_symm_and_self (a b : List ℝ) :
    (a.length = b.length → cosineSimilarity Real.sqrt a b = cosineSimilarity Real.sqrt b a) ∧
      ((∃ x ∈ a, x ≠ 0) → cosineSimilarity Real.sqrt a a = JSNum.fin 1) := by
  constructor
  · intro hlen
    rw [cosineSimilarity_of_le Real.sqrt a b hlen.le,
      cosineSimilarity_of_le Real.sqrt b a hlen.ge, sum_zipWith_mul_comm a b,
      mul_comm (Real.sqrt (sumSquares a))]
  · intro hne
    have hpos : 0 < sumSquares a := by
      rcases (sumSquares_nonneg a).lt_or_eq with h | h
      · exact h
      · exfalso
        obtain ⟨x, hx, hx0⟩ := hne
        exact hx0 ((sumSquares_eq_zero_iff a).1 h.symm x hx)
    rw [cosineSimilarity_of_le Real.sqrt a a le_rfl, sum_zipWith_self,
      Real.mul_self_sqrt hpos.le, JSNum.div_fin_of_ne hpos.ne', div_self hpos.ne']

/-- Witness for C7: the vectors `[1, 2]` and `[3, 4]`. -/
theorem cosineSimilarity_symm_and_self_witness :
    cosineSimilarity Real.sqrt [1, 2] [3, 4] = cosineSimilarity Real.sqrt [3, 4] [1, 2] ∧
      cosineSimilarity Real.sqrt [1, 2] [1, 2] = (JSNum.fin 1 : JSNum ℝ) :=
  ⟨(cosineSimilarity_symm_and_self [1, 2] [3, 4]).1 rfl,
    (cosineSimilarity_symm_and_self [1, 2] [1, 2]).2 ⟨1, by simp, by norm_num⟩⟩

end CosineClaims

/-! ### Facts about the ranking -/

section RetrievalFacts

variable {α : Type} [LinearOrderedField α]

theorem JSNum.div_nan_left (a : JSNum α) : JSNum.div JSNum.nan a = JSNum.nan := by
  cases a <;> rfl

/-- On numbers other than `NaN` the comparator `b - a` is positive exactly when `a >= b`
fails. -/
theorem JSNum.sub_pos_eq_false_iff {a b : JSNum α} (ha : a ≠ JSNum.nan) (hb : b ≠ JSNum.nan) :
    JSNum.lt (JSNum.fin 0) (JSNum.sub b a) = false ↔ JSNum.ge a b = true := by
  cases a <;> cases b <;>
    simp_all [JSNum.sub, JSNum.neg, JSNum.add, JSNum.lt, JSNum.ge]

theorem JSNum.ge_trans {a b c : JSNum α} (hab : JSNum.ge a b = true)
    (hbc : JSNum.ge b c = true) : JSNum.ge a c = true := by
  cases a <;> cases b <;> cases c <;> simp_all [JSNum.ge]
  exact le_trans hbc hab

theorem JSNum.ge_total {a b : JSNum α} (ha : a ≠ JSNum.nan) (hb : b ≠ JSNum.nan) :
    JSNum.ge a b = true ∨ JSNum.ge b a = true := by
  cases a <;> cases b <;> simp_all [JSNum.ge]
  exact le_total _ _

theorem JSNum.lt_eq_false_of_ge {a b : JSNum α} (h : JSNum.ge a b = true) :
    JSNum.lt a b = false := by
  cases a <;> cases b <;> simp_all [JSNum.ge, JSNum.lt]

theorem JSNum.ge_refl {a : JSNum α} (ha : a ≠ JSNum.nan) : JSNum.ge a a = true := by
  cases a <;> simp_all [JSNum.ge]

/-- The order test of the sort, on chunks whose scores are not `NaN`. -/
theorem keepsOrder_byScoreDesc_iff {a b : ScoredChunk α}
    (ha : a.similarityScore ≠ JSNum.nan) (hb : b.similarityScore ≠ JSNum.nan) :
    keepsOrder byScoreDesc a b ↔ JSNum.ge a.similarityScore b.similarityScore = true :=
  JSNum.sub_pos_eq_false_iff ha hb

/-- Inserting a chunk into a list sorted by non-increasing score keeps it sorted, as long as no
score involved is `NaN`. -/
theorem pairwise_orderedInsert_byScoreDesc (a : ScoredChunk α) (l : List (ScoredChunk α))
    (ha : a.similarityScore ≠ JSNum.nan) (hl : ∀ c ∈ l, c.similarityScore ≠ JSNum.nan)
    (hs : l.Pairwise (fun x y => JSNum.ge x.similarityScore y.similarityScore = true)) :
    (l.orderedInsert (keepsOrder byScoreDesc) a).Pairwise
      (fun x y => JSNum.ge x.similarityScore y.similarityScore = true) := by
  induction l with
  | nil => simp
  | cons b l ih =>
    have hb : b.similarityScore ≠ JSNum.nan := hl b (by simp)
    have hl2 : ∀ c ∈ l, c.similarityScore ≠ JSNum.nan := fun c hc => hl c (by simp [hc])
    obtain ⟨hbl, hsl⟩ := List.pairwise_cons.1 hs
    by_cases h : keepsOrder byScoreDesc a b
    · rw [List.orderedInsert, if_pos h]
      have hab := (keepsOrder_byScoreDesc_iff ha hb).1 h
      refine List.pairwise_cons.2 ⟨?_, hs⟩
      intro c hc
      rcases List.mem_cons.1 hc with rfl | hc
      · exact hab
      · exact JSNum.ge_trans hab (hbl c hc)
    · rw [List.orderedInsert, if_neg h]
      have hba : JSNum.ge b.similarityScore a.similarityScore = true := by
        rcases JSNum.ge_total ha hb with h1 | h1
        · exact absurd ((keepsOrder_byScoreDesc_iff ha hb).2 h1) h
        · exact h1
      refine List.pairwise_cons.2 ⟨?_, ih hl2 hsl⟩
      intro c hc
      rcases (List.mem_orderedInsert _).1 hc with rfl | hc
      · exact hba
      · exact hbl c hc

/-- Sorting chunks none of whose scores is `NaN` yields non-increasing scores. -/
theorem pairwise_jsSort_byScoreDesc (l : List (ScoredChunk α))
    (hl : ∀ c ∈ l, c.similarityScore ≠ JSNum.nan) :
    (jsSort byScoreDesc l).Pairwise
      (fun x y => JSNum.ge x.similarityScore y.similarityScore = true) := by
  induction l with
  | nil => simp [jsSort]
  | cons a l ih =>
    have hl2 : ∀ c ∈ l, c.similarityScore ≠ JSNum.nan := fun c hc => hl c (by simp [hc])
    have hmem : ∀ c ∈ jsSort byScoreDesc l, c.similarityScore ≠ JSNum.nan := fun c hc =>
      hl2 c ((List.mem_insertionSort _).1 hc)
    exact pairwise_orderedInsert_byScoreDesc a _ (hl a (by simp)) hmem (ih hl2)

theorem slice_zero_of_nonneg {β : Type} (xs : List β) (k : Int) (hk : 0 ≤ k) :
    slice xs 0 k = xs.take k.toNat := by
  have h1 : ¬ k < 0 := not_lt.2 hk
  simp only [slice, relIndex, h1, if_false, lt_self_iff_false, Int.toNat_zero, Nat.zero_min,
    List.drop_zero, Nat.sub_zero]
  rcases Nat.le_total k.toNat xs.length with h | h
  · rw [Nat.min_eq_left h]
  · rw [Nat.min_eq_right h, List.take_of_length_le h, List.take_of_length_le le_rfl]

theorem slice_zero_of_neg {β : Type} (xs : List β) (k : Int) (hk : k < 0) :
    slice xs 0 k = xs.take ((xs.length : Int) + k).toNat := by
  simp [slice, relIndex, hk]

theorem length_jsSort {β : Type} (compareFn : β → β → JSNum α) (xs : List β) :
    (jsSort compareFn xs).length = xs.length :=
  List.length_insertionSort _ xs

theorem length_scoreChunks (sqrt : α → α) (index : List (IndexRecord α)) (q : List α) :
    (scoreChunks sqrt index q).length = index.length := by
  simp [scoreChunks]

/-- The number of chunks returned: `slice(0, topK)` of an array as long as the index. -/
theorem length_retrieveRelevantChunks (sqrt : α → α) (index : List (IndexRecord α))
    (q : List α) (k : Int) :
    ((retrieveRelevantChunks sqrt index q k).length : Int)
      = if 0 ≤ k then min k index.length else max ((index.length : Int) + k) 0 := by
  unfold retrieveRelevantChunks
  by_cases hk : 0 ≤ k
  · simp only [slice_zero_of_nonneg _ k hk, if_pos hk, List.length_take, length_jsSort,
      length_scoreChunks]
    omega
  · simp only [slice_zero_of_neg _ k (not_le.1 hk), if_neg hk, List.length_take, length_jsSort,
      length_scoreChunks]
    omega

end RetrievalFacts

/-! ### Claims about `retrieveRelevantChunks` -/

section RetrievalClaims

variable {α : Type} [LinearOrderedField α]

theorem scores_recA : cosineSimilarity Real.sqrt [1, 0] recA.embedding = JSNum.fin 0 := by
  simp [recA, cosineSimilarity, dotProduct, reduceIdx, dotStep, elemAt, sumSquares, JSNum.mul,
    JSNum.add, JSNum.div]

theorem scores_recB : cosineSimilarity Real.sqrt [1, 0] recB.embedding = JSNum.nan := by
  simp [recB, cosineSimilarity, dotProduct, reduceIdx, dotStep, elemAt, sumSquares, JSNum.mul,
    JSNum.add, JSNum.div]

theorem scores_recC : cosineSimilarity Real.sqrt [1, 0] recC.embedding = JSNum.fin 1 := by
  simp [recC, cosineSimilarity, dotProduct, reduceIdx, dotStep, elemAt, sumSquares, JSNum.mul,
    JSNum.add, JSNum.div]

/-- C1 (counterexample): with the index `[recA, recB, recC]` and the query `[1, 0]` the scores
are `0`, `NaN`, `1`; every comparison of the sort involves the `NaN` and leaves the order
unchanged, so `topK = 1` returns `recA` (score `0`) and omits `recC` (score `1`).  Already for
the index `[recB, recC]` the scores of the result are `NaN, 1`, which is not non-increasing. -/
theorem retrieveRelevantChunks_nan_score_unsorted :
    retrieveRelevantChunks Real.sqrt [recA, recB, recC] [1, 0] 1 = [⟨recA, JSNum.fin 0⟩] ∧
      scoreChunks Real.sqrt [recA, recB, recC] [1, 0]
        = [⟨recA, JSNum.fin 0⟩, ⟨recB, JSNum.nan⟩, ⟨recC, JSNum.fin 1⟩] ∧
      JSNum.lt (JSNum.fin (0 : ℝ)) (JSNum.fin 1) = true ∧
      (retrieveRelevantChunks Real.sqrt [recB, recC] [1, 0] 2).map (fun c => c.similarityScore)
        = [JSNum.nan, JSNum.fin 1] ∧
      JSNum.ge (JSNum.nan : JSNum ℝ) (JSNum.fin 1) = false := by
  refine ⟨?_, ?_, ?_, ?_, rfl⟩
  · simp [retrieveRelevantChunks, scoreChunks, scores_recA, scores_recB, scores_recC, jsSort,
      slice, relIndex, byScoreDesc, keepsOrder, JSNum.sub, JSNum.neg, JSNum.add, JSNum.lt]
  · simp [scoreChunks, scores_recA, scores_recB, scores_recC]
  · simp [JSNum.lt]
  · simp [retrieveRelevantChunks, scoreChunks, scores_recB, scores_recC, jsSort,
      slice, relIndex, byScoreDesc, keepsOrder, JSNum.sub, JSNum.neg, JSNum.add, JSNum.lt]

/-- C1 (amended): when no similarity score is `NaN`, for every `k >= 0` the result is the first
`k` records of the scored index stably sorted by descending score: the sorted list is a
permutation of the scored index with non-increasing scores in which two records of equal score
keep their index order, and no omitted record scores strictly higher than a returned one. -/
theorem retrieveRelevantChunks_sorted_top (sqrt : α → α) (index : List (IndexRecord α))
    (q : List α) (k : Int) (hk : 0 ≤ k)
    (hnan : ∀ item ∈ index, cosineSimilarity sqrt q item.embedding ≠ JSNum.nan) :
    retrieveRelevantChunks sqrt index q k
        = (jsSort byScoreDesc (scoreChunks sqrt index q)).take k.toNat ∧
      (jsSort byScoreDesc (scoreChunks sqrt index q)).Perm (scoreChunks sqrt index q) ∧
      (jsSort byScoreDesc (scoreChunks sqrt index q)).Pairwise
        (fun x y => JSNum.ge x.similarityScore y.similarityScore = true) ∧
      (∀ a b : ScoredChunk α, a.similarityScore = b.similarityScore →
        List.Sublist [a, b] (scoreChunks sqrt index q) →
        List.Sublist [a, b] (jsSort byScoreDesc (scoreChunks sqrt index q))) ∧
      (retrieveRelevantChunks sqrt index q k).Pairwise
        (fun x y => JSNum.ge x.similarityScore y.similarityScore = true) ∧
      (∀ r ∈ retrieveRelevantChunks sqrt index q k,
        ∀ o ∈ (jsSort byScoreDesc (scoreChunks sqrt index q)).drop k.toNat,
          JSNum.lt r.similarityScore o.similarityScore = false) := by
  have hsc : ∀ c ∈ scoreChunks sqrt index q, c.similarityScore ≠ JSNum.nan := by
    intro c hc
    obtain ⟨item, hitem, rfl⟩ := List.mem_map.1 hc
    exact hnan item hitem
  have hres : retrieveRelevantChunks sqrt index q k
      = (jsSort byScoreDesc (scoreChunks sqrt index q)).take k.toNat :=
    slice_zero_of_nonneg _ k hk
  have hsorted := pairwise_jsSort_byScoreDesc (scoreChunks sqrt index q) hsc
  refine ⟨hres, List.perm_insertionSort _ _, hsorted, ?_, ?_, ?_⟩
  · intro a b hab hsub
    have ha : a ∈ scoreChunks sqrt index q := hsub.subset (by simp)
    have hb : b ∈ scoreChunks sqrt index q := hsub.subset (by simp)
    have hge : JSNum.ge a.similarityScore b.similarityScore = true := by
      rw [hab]; exact JSNum.ge_refl (hsc b hb)
    exact List.pair_sublist_insertionSort
      ((keepsOrder_byScoreDesc_iff (hsc a ha) (hsc b hb)).2 hge) hsub
  · rw [hres]
    exact hsorted.sublist (List.take_sublist _ _)
  · intro r hr o ho
    rw [hres] at hr
    exact JSNum.lt_eq_false_of_ge (List.Sorted.rel_of_mem_take_of_mem_drop hsorted hr ho)

/-- Witness for C1: the index `[recA, recC]` scores `0, 1` against the query `[1, 0]`, and
`topK = 1` returns `recC`. -/
theorem retrieveRelevantChunks_sorted_top_witness :
    retrieveRelevantChunks Real.sqrt [recA, recC] [1, 0] 1
        = (jsSort byScoreDesc (scoreChunks Real.sqrt [recA, recC] [1, 0])).take 1 ∧
      retrieveRelevantChunks Real.sqrt [recA, recC] [1, 0] 1 = [⟨recC, JSNum.fin 1⟩] := by
  have hnan : ∀ item ∈ [recA, recC],
      cosineSimilarity Real.sqrt [1, 0] item.embedding ≠ JSNum.nan := by
    intro item hitem
    simp only [List.mem_cons, List.mem_singleton, List.not_mem_nil, or_false] at hitem
    rcases hitem with rfl | rfl
    · rw [scores_recA]; exact fun h => JSNum.noConfusion h
    · rw [scores_recC]; exact fun h => JSNum.noConfusion h
  refine ⟨(retrieveRelevantChunks_sorted_top Real.sqrt [recA, recC] [1, 0] 1 (by decide)
    hnan).1, ?_⟩
  simp [retrieveRelevantChunks, scoreChunks, scores_recA, scores_recC, jsSort,
    slice, relIndex, byScoreDesc, keepsOrder, JSNum.sub, JSNum.neg, JSNum.add, JSNum.lt]

/-- C2 (counterexample): with `topK = -1` on an index of three records `slice(0, -1)` drops the
last chunk and returns two, not `min(-1, 3)`. -/
theorem retrieveRelevantChunks_negative_topK :
    ((retrieveRelevantChunks Real.sqrt [recA, recC, recA] [1, 0] (-1)).length : Int) = 2 ∧
      ((retrieveRelevantChunks Real.sqrt [recA, recC, recA] [1, 0] (-1)).length : Int)
        ≠ min (-1) (([recA, recC, recA] : List (IndexRecord ℝ)).length : Int) := by
  have h := length_retrieveRelevantChunks Real.sqrt [recA, recC, recA] [1, 0] (-1)
  rw [h]
  constructor <;> decide

/-- C2 (amended): for every `k >= 0` the result has exactly `min(k, |index|)` chunks; for a
negative `k` it has `max(|index| + k, 0)` chunks; for an empty index it is empty for every
`k`. -/
theorem retrieveRelevantChunks_length (sqrt : α → α) (index : List (IndexRecord α))
    (q : List α) (k : Int) :
    ((retrieveRelevantChunks sqrt index q k).length : Int)
        = (if 0 ≤ k then min k index.length else max ((index.length : Int) + k) 0) ∧
      retrieveRelevantChunks sqrt [] q k = [] := by
  refine ⟨length_retrieveRelevantChunks sqrt index q k, ?_⟩
  have h := length_retrieveRelevantChunks sqrt [] q k
  have h0 : ((retrieveRelevantChunks sqrt [] q k).length : Int) = 0 := by
    rw [h]
    simp only [List.length_nil, Int.ofNat_zero, zero_add]
    split_ifs with hk <;> omega
  exact List.length_eq_zero.1 (by exact_mod_cast h0)

end RetrievalClaims

/-! ### Length mismatch between the query and a record -/

section MismatchClaims

/-- C8 (counterexample): for the query `[1]` and a record embedding `[1, 0]` (record longer)
the computation yields the numeric score `1`; for the query `[1, 0]` and the record `[1]`
(query longer) it yields the value `NaN`.  No length is inspected in either direction. -/
theorem cosineSimilarity_mismatch_not_detected :
    cosineSimilarity Real.sqrt [1] [1, 0] = JSNum.fin (1 : ℝ) ∧
      cosineSimilarity Real.sqrt [1, 0] [1] = (JSNum.nan : JSNum ℝ) ∧
      (retrieveRelevantChunks Real.sqrt [recC] [1] 3).map (fun c => c.similarityScore)
        = [JSNum.fin 1] := by
  have h1 : cosineSimilarity Real.sqrt [1] [1, 0] = JSNum.fin (1 : ℝ) := by
    simp [cosineSimilarity, dotProduct, reduceIdx, dotStep, elemAt, sumSquares, JSNum.mul,
      JSNum.add, JSNum.div]
  refine ⟨h1, ?_, ?_⟩
  · simp [cosineSimilarity, dotProduct, reduceIdx, dotStep, elemAt, sumSquares, JSNum.mul,
      JSNum.add, JSNum.div]
  · have h2 : cosineSimilarity Real.sqrt [1] recC.embedding = JSNum.fin (1 : ℝ) := h1
    simp [retrieveRelevantChunks, scoreChunks, h2, jsSort, slice, relIndex]

/-- C8 (amended): `cosineSimilarity` inspects no length and signals no error.  When the record
embedding is shorter than the query the score is `NaN`; when it is longer and both vectors
have a nonzero component, the score is the number obtained from the products of the paired
components (the surplus components of the record enter its magnitude only). -/
theorem cosineSimilarity_length_mismatch (q r : List ℝ) :
    (r.length < q.length → cosineSimilarity Real.sqrt q r = JSNum.nan) ∧
      (q.length < r.length → (∃ x ∈ q, x ≠ 0) → (∃ x ∈ r, x ≠ 0) →
        cosineSimilarity Real.sqrt q r
          = JSNum.fin ((List.zipWith (fun x y => x * y) q r).sum
              / (Real.sqrt (sumSquares q) * Real.sqrt (sumSquares r)))) := by
  constructor
  · intro hlen
    simp [cosineSimilarity, dotProduct_of_gt q r hlen, JSNum.div_nan_left]
  · intro hlen hq hr
    have hq0 : Real.sqrt (sumSquares q) ≠ 0 := by
      intro h
      obtain ⟨x, hx, hx0⟩ := hq
      exact hx0 ((sqrt_sumSquares_eq_zero_iff q).1 h x hx)
    have hr0 : Real.sqrt (sumSquares r) ≠ 0 := by
      intro h
      obtain ⟨x, hx, hx0⟩ := hr
      exact hx0 ((sqrt_sumSquares_eq_zero_iff r).1 h x hx)
    rw [cosineSimilarity_of_le Real.sqrt q r hlen.le,
      JSNum.div_fin_of_ne (mul_ne_zero hq0 hr0)]

/-- Witness for C8: the vectors `[1, 0]` and `[1]` in both orders. -/
theorem cosineSimilarity_length_mismatch_witness :
    cosineSimilarity Real.sqrt [1, 0] [1] = (JSNum.nan : JSNum ℝ) ∧
      cosineSimilarity Real.sqrt [1] [1, 0]
        = JSNum.fin ((List.zipWith (fun x y => x * y) [1] [1, 0]).sum
            / (Real.sqrt (sumSquares [1]) * Real.sqrt (sumSquares [1, 0]))) :=
  ⟨(cosineSimilarity_length_mismatch [1, 0] [1]).1 (by decide),
    (cosineSimilarity_length_mismatch [1] [1, 0]).2 (by decide) ⟨1, by simp, by norm_num⟩
      ⟨1, by simp, by norm_num⟩⟩

end MismatchClaims

/-! ### Facts about `splitWhitespace`, `joinSpace` and `trim` -/

section TextFacts

theorem splitAux_ne_nil (b : Bool) (l : List Char) : splitAux b l ≠ [] := by
  induction l generalizing b with
  | nil => simp [splitAux]
  | cons c cs ih =>
    unfold splitAux
    split_ifs
    · exact ih true
    · simp
    · cases h : splitAux false cs with
      | nil => exact absurd h (ih false)
      | cons w ws => simp [consHead]

theorem length_splitWhitespace_pos (text : List Char) : 0 < (splitWhitespace text).length :=
  List.length_pos.2 (splitAux_ne_nil false text)

/-- No token contains a whitespace character. -/
theorem splitAux_wsFree (b : Bool) (l : List Char) :
    ∀ t ∈ splitAux b l, ∀ c ∈ t, isWhiteSpace c = false := by
  induction l generalizing b with
  | nil => simp [splitAux]
  | cons c cs ih =>
    unfold splitAux
    split_ifs with hc hb
    · exact ih true
    · intro t ht
      rcases List.mem_cons.1 ht with rfl | ht
      · simp
      · exact ih true t ht
    · cases h : splitAux false cs with
      | nil => exact absurd h (splitAux_ne_nil false cs)
      | cons w ws =>
        have ih' := ih false
        rw [h] at ih'
        intro t ht
        simp only [consHead, List.mem_cons] at ht
        rcases ht with rfl | ht
        · intro d hd
          rcases List.mem_cons.1 hd with rfl | hd
          · simpa using hc
          · exact ih' w (by simp) d hd
        · exact ih' t (by simp [ht])

theorem InnerNonempty.cons {t : List Char} {ts : List (List Char)} (ht : t ≠ [])
    (h : InnerNonempty ts) : InnerNonempty (t :: ts) := by
  intro u hu
  cases ts with
  | nil => simp at hu
  | cons v vs =>
    rw [List.dropLast_cons₂] at hu
    rcases List.mem_cons.1 hu with rfl | hu
    · exact ht
    · exact h u hu

theorem InnerNonempty.drop {ts : List (List Char)} (h : InnerNonempty ts) (k : Nat) :
    InnerNonempty (ts.drop k) := by
  intro u hu
  have hsub : (ts.drop k).dropLast.Sublist ts.dropLast := by
    rw [List.dropLast_eq_take, List.dropLast_eq_take, List.length_drop]
    rw [show ts.length - k - 1 = ts.length - 1 - k by omega, ← List.drop_take]
    exact List.drop_sublist _ _
  exact h u (hsub.subset hu)

end TextFacts

section TextFacts2

theorem splitAux_inner (l : List Char) :
    InnerNonempty (splitAux true l) ∧ InnerNonempty (splitAux false l).tail := by
  induction l with
  | nil => constructor <;> intro t ht <;> simp [splitAux] at ht
  | cons c cs ih =>
    by_cases hc : isWhiteSpace c = true
    · have h1 : splitAux true (c :: cs) = splitAux true cs := by simp [splitAux, hc]
      have h2 : splitAux false (c :: cs) = [] :: splitAux true cs := by simp [splitAux, hc]
      rw [h1, h2]
      exact ⟨ih.1, ih.1⟩
    · cases h : splitAux false cs with
      | nil => exact absurd h (splitAux_ne_nil false cs)
      | cons w ws =>
        have h1 : ∀ b, splitAux b (c :: cs) = (c :: w) :: ws := by
          intro b; simp [splitAux, hc, h, consHead]
        have hws : InnerNonempty ws := by simpa [h] using ih.2
        rw [h1, h1]
        exact ⟨InnerNonempty.cons (by simp) hws, hws⟩

theorem WsFree.tail {t : List Char} {ts : List (List Char)} (h : WsFree (t :: ts)) :
    WsFree ts :=
  fun u hu => h u (List.mem_cons_of_mem _ hu)

theorem WsFree.sublist {ts us : List (List Char)} (h : WsFree ts) (hs : us.Sublist ts) :
    WsFree us :=
  fun u hu => h u (hs.subset hu)

theorem wsFree_splitWhitespace (text : List Char) : WsFree (splitWhitespace text) :=
  splitAux_wsFree false text

theorem isWhiteSpace_space : isWhiteSpace ' ' = true := by decide

theorem joinSpace_cons_cons (t u : List Char) (ts : List (List Char)) :
    joinSpace (t :: u :: ts) = t ++ ' ' :: joinSpace (u :: ts) := rfl

theorem joinSpace_concat (ts : List (List Char)) (t : List Char) (h : ts ≠ []) :
    joinSpace (ts ++ [t]) = joinSpace ts ++ ' ' :: t := by
  induction ts with
  | nil => exact absurd rfl h
  | cons u us ih =>
    cases us with
    | nil => simp [joinSpace]
    | cons v vs =>
      have := ih (by simp)
      simp only [List.cons_append] at this ⊢
      rw [joinSpace_cons_cons, this, joinSpace_cons_cons]
      simp

/-- Removing the leading whitespace of the joined tokens removes the leading empty tokens. -/
theorem dropWhile_joinSpace (ts : List (List Char)) (h : WsFree ts) :
    (joinSpace ts).dropWhile isWhiteSpace = joinSpace (ts.dropWhile List.isEmpty) := by
  induction ts with
  | nil => rfl
  | cons t ts ih =>
    cases t with
    | nil =>
      cases ts with
      | nil => rfl
      | cons u us =>
        have hl : (joinSpace ([] :: u :: us)).dropWhile isWhiteSpace
            = (joinSpace (u :: us)).dropWhile isWhiteSpace := by
          rw [joinSpace_cons_cons]
          simp [List.dropWhile_cons, isWhiteSpace_space]
        have hr : ([] :: u :: us).dropWhile List.isEmpty
            = (u :: us).dropWhile List.isEmpty := by
          rw [List.dropWhile_cons]; simp
        rw [hl, hr]
        exact ih h.tail
    | cons c t' =>
      have hc : isWhiteSpace c = false := h (c :: t') (by simp) c (by simp)
      cases ts with
      | nil => simp [joinSpace, List.dropWhile_cons, hc]
      | cons u us =>
        have hr : ((c :: t') :: u :: us).dropWhile List.isEmpty = (c :: t') :: u :: us := by
          rw [List.dropWhile_cons]; simp
        rw [hr, joinSpace_cons_cons]
        simp [List.dropWhile_cons, hc]

/-- Removing the trailing whitespace of the joined tokens removes the trailing empty tokens. -/
theorem rdropWhile_joinSpace (ts : List (List Char)) (h : WsFree ts) :
    (joinSpace ts).rdropWhile isWhiteSpace = joinSpace (ts.rdropWhile List.isEmpty) := by
  induction ts using List.reverseRecOn with
  | nil => rfl
  | append_singleton us t ih =>
    have hus : WsFree us := h.sublist (List.sublist_append_left _ _)
    rcases List.eq_nil_or_concat t with rfl | ⟨t', c, ht⟩
    · rw [List.rdropWhile_concat_pos _ _ _ (by simp)]
      by_cases hn : us = []
      · subst hn; rfl
      · rw [joinSpace_concat us [] hn, ← ih hus]
        have : joinSpace us ++ [' '] = joinSpace us ++ [' '] := rfl
        exact List.rdropWhile_concat_pos _ _ _ isWhiteSpace_space
    · rw [List.concat_eq_append] at ht
      subst ht
      have hc : isWhiteSpace c = false := h (t' ++ [c]) (by simp) c (by simp)
      rw [List.rdropWhile_concat_neg _ _ _ (by simp)]
      by_cases hn : us = []
      · subst hn
        simp only [List.nil_append, joinSpace]
        exact List.rdropWhile_concat_neg _ _ _ (by simp [hc])
      · rw [joinSpace_concat us _ hn]
        have : joinSpace us ++ ' ' :: (t' ++ [c]) = (joinSpace us ++ ' ' :: t') ++ [c] := by simp
        rw [this]
        exact List.rdropWhile_concat_neg _ _ _ (by simp [hc])

/-- Trimming the joined tokens removes the empty tokens at both ends. -/
theorem trim_joinSpace (ts : List (List Char)) (h : WsFree ts) :
    trim (joinSpace ts) = joinSpace ((ts.dropWhile List.isEmpty).rdropWhile List.isEmpty) := by
  unfold trim
  rw [dropWhile_joinSpace ts h,
    rdropWhile_joinSpace _ (h.sublist (List.dropWhile_sublist _))]

end TextFacts2

section TextFacts3

theorem splitAux_token (b : Bool) (t : List Char) (h : ∀ c ∈ t, isWhiteSpace c = false) :
    splitAux b t = [t] := by
  induction t generalizing b with
  | nil => rfl
  | cons c t ih =>
    have hc : isWhiteSpace c = false := h c (by simp)
    have := ih false (fun d hd => h d (by simp [hd]))
    simp [splitAux, hc, this, consHead]

theorem splitAux_false_token_space (t rest : List Char)
    (h : ∀ c ∈ t, isWhiteSpace c = false) :
    splitAux false (t ++ ' ' :: rest) = t :: splitAux true rest := by
  induction t with
  | nil => simp [splitAux, isWhiteSpace_space]
  | cons c t ih =>
    have hc : isWhiteSpace c = false := h c (by simp)
    have := ih (fun d hd => h d (by simp [hd]))
    simp [splitAux, hc, this, consHead]

theorem keepWords_splitAux_token_space (b : Bool) (t rest : List Char)
    (h : ∀ c ∈ t, isWhiteSpace c = false) :
    keepWords (splitAux b (t ++ ' ' :: rest)) = keepWords [t] ++ keepWords (splitAux true rest) := by
  cases t with
  | nil => cases b <;> simp [splitAux, isWhiteSpace_space, keepWords]
  | cons c t =>
    have hc : isWhiteSpace c = false := h c (by simp)
    have := splitAux_false_token_space t rest (fun d hd => h d (by simp [hd]))
    simp [splitAux, hc, this, consHead, keepWords]

/-- Splitting the joined tokens gives back the non-empty tokens. -/
theorem keepWords_splitAux_joinSpace (b : Bool) (ts : List (List Char)) (h : WsFree ts) :
    keepWords (splitAux b (joinSpace ts)) = keepWords ts := by
  induction ts generalizing b with
  | nil => rfl
  | cons t ts ih =>
    cases ts with
    | nil =>
      have := splitAux_token b t (h t (by simp))
      simp [joinSpace, this]
    | cons u us =>
      rw [joinSpace_cons_cons, keepWords_splitAux_token_space b t _ (h t (by simp)),
        ih true h.tail]
      unfold keepWords
      rw [← List.filter_append]
      rfl

theorem keepWords_dropWhile (ts : List (List Char)) :
    keepWords (ts.dropWhile List.isEmpty) = keepWords ts := by
  induction ts with
  | nil => rfl
  | cons t ts ih =>
    cases t with
    | nil => simpa [List.dropWhile_cons, keepWords] using ih
    | cons c t => simp [List.dropWhile_cons]

theorem keepWords_rdropWhile (ts : List (List Char)) :
    keepWords (ts.rdropWhile List.isEmpty) = keepWords ts := by
  induction ts using List.reverseRecOn with
  | nil => rfl
  | append_singleton us t ih =>
    cases t with
    | nil =>
      rw [List.rdropWhile_concat_pos _ _ _ (by simp), ih]
      simp [keepWords]
    | cons c t => rw [List.rdropWhile_concat_neg _ _ _ (by simp)]

/-- The words of a rendered window are its non-empty tokens. -/
theorem wordsOf_trim_joinSpace (ts : List (List Char)) (h : WsFree ts) :
    wordsOf (trim (joinSpace ts)) = keepWords ts := by
  have h2 : WsFree ((ts.dropWhile List.isEmpty).rdropWhile List.isEmpty) :=
    (h.sublist (List.dropWhile_sublist _)).sublist (List.rdropWhile_prefix ..).sublist
  rw [trim_joinSpace ts h, wordsOf, splitWhitespace, keepWords_splitAux_joinSpace false _ h2,
    keepWords_rdropWhile, keepWords_dropWhile]

theorem rdropWhile_isEmpty_of_inner (ts : List (List Char)) (h : InnerNonempty ts) :
    ts.rdropWhile List.isEmpty = keepWords ts := by
  rcases List.eq_nil_or_concat ts with rfl | ⟨init, last, hts⟩
  · rfl
  · rw [List.concat_eq_append] at hts
    subst hts
    have hinit : ∀ t ∈ init, t ≠ [] := by
      intro t ht
      exact h t (by simpa using ht)
    have hk : keepWords init = init := by
      unfold keepWords
      rw [List.filter_eq_self]
      intro t ht
      have := hinit t ht
      cases t <;> simp_all
    have hsplit : keepWords (init ++ [last]) = init ++ keepWords [last] := by
      unfold keepWords at hk ⊢
      rw [List.filter_append, hk]
    rw [hsplit]
    cases last with
    | nil =>
      rw [List.rdropWhile_concat_pos _ _ _ (by simp)]
      have : init.rdropWhile List.isEmpty = init := by
        rw [List.rdropWhile_eq_self_iff]
        intro hne
        have := hinit _ (List.getLast_mem hne)
        cases hl : init.getLast hne <;> simp_all
      rw [this]
      simp [keepWords]
    | cons c t =>
      rw [List.rdropWhile_concat_neg _ _ _ (by simp)]
      simp [keepWords]

/-- When only the first and the last token can be empty, trimming the joined tokens leaves the
non-empty tokens joined by single spaces. -/
theorem trim_joinSpace_of_inner (ts : List (List Char)) (h : WsFree ts)
    (hin : InnerNonempty ts.tail) : trim (joinSpace ts) = joinSpace (keepWords ts) := by
  rw [trim_joinSpace ts h]
  congr 1
  cases ts with
  | nil => rfl
  | cons t rest =>
    simp only [List.tail_cons] at hin
    cases t with
    | cons c t =>
      have hd : ((c :: t) :: rest).dropWhile List.isEmpty = (c :: t) :: rest := by
        rw [List.dropWhile_cons]; simp
      rw [hd]
      exact rdropWhile_isEmpty_of_inner _ (InnerNonempty.cons (by simp) hin)
    | nil =>
      have hd : ([] :: rest).dropWhile List.isEmpty = rest.dropWhile List.isEmpty := by
        rw [List.dropWhile_cons]; simp
      have hk : keepWords ([] :: rest) = keepWords rest := by simp [keepWords]
      rw [hd, hk]
      cases rest with
      | nil => rfl
      | cons u us =>
        cases u with
        | cons d u =>
          have hd2 : ((d :: u) :: us).dropWhile List.isEmpty = (d :: u) :: us := by
            rw [List.dropWhile_cons]; simp
          rw [hd2]
          exact rdropWhile_isEmpty_of_inner _ hin
        | nil =>
          have hus : us = [] := by
            by_contra hne
            obtain ⟨v, vs, rfl⟩ := List.exists_cons_of_ne_nil hne
            exact hin [] (by simp [List.dropLast_cons₂]) rfl
          subst hus
          rfl

/-- The single chunk of a short text: trimming the joined tokens of a text leaves its words
joined by single spaces. -/
theorem trim_joinSpace_splitWhitespace (text : List Char) :
    trim (joinSpace (splitWhitespace text)) = joinSpace (wordsOf text) :=
  trim_joinSpace_of_inner _ (wsFree_splitWhitespace text) (splitAux_inner text).2

end TextFacts3

/-! ### Facts about the loop of `chunkText` -/

section LoopFacts

theorem slice_window {β : Type} (xs : List β) (i : Nat) (w : Int) (hw : 0 ≤ w)
    (hi : i ≤ xs.length) : slice xs (i : Int) ((i : Int) + w) = (xs.drop i).take w.toNat := by
  have h1 : ¬ ((i : Int) < 0) := by omega
  have h2 : ¬ ((i : Int) + w < 0) := by omega
  have h3 : ((i : Int) + w).toNat = i + w.toNat := by omega
  simp only [slice, relIndex, h1, h2, if_false, Int.toNat_ofNat, h3, Nat.min_eq_left hi]
  rcases Nat.le_total (i + w.toNat) xs.length with h | h
  · rw [Nat.min_eq_left h]
    congr 1
    omega
  · rw [Nat.min_eq_right h, List.take_of_length_le (by simp),
      List.take_of_length_le (by simp; omega)]

theorem renderWindows_cons (w : List (List Char)) (ws : List (List (List Char))) :
    renderWindows (w :: ws) = renderWindows [w] ++ renderWindows ws := by
  simp only [renderWindows, List.map_cons, List.map_nil]
  rw [← List.filter_append]
  rfl

theorem chunkStep_eq (words : List (List Char)) (w : Int) (hw : 0 ≤ w) (i : Nat)
    (hi : i ≤ words.length) (acc : List (List Char)) :
    chunkStep words w i acc = acc ++ renderWindows [(words.drop i).take w.toNat] := by
  unfold chunkStep
  rw [slice_window words i w hw hi]
  by_cases h : 0 < (trim (joinSpace ((words.drop i).take w.toNat))).length
  · simp [renderWindows, h]
  · simp [renderWindows, h]

/-- With `chunkSize > overlap >= 0` the loop started at index `i` ends within
`words.length - i` iterations, having pushed the rendered windows from `i` on. -/
theorem chunkLoop_eq (words : List (List Char)) (w o : Int) (ho : 0 ≤ o) (hw : o < w) :
    ∀ (fuel i : Nat) (acc : List (List Char)), words.length - i ≤ fuel →
      chunkLoop words w o fuel i acc
        = some (acc ++ renderWindows
            (windowsFrom w.toNat (w - o).toNat fuel (words.drop i))) := by
  intro fuel
  induction fuel with
  | zero =>
    intro i acc hfuel
    have hi : ¬ ((i : Int) < (words.length : Int)) := by omega
    simp [chunkLoop, hi, windowsFrom, renderWindows]
  | succ fuel ih =>
    intro i acc hfuel
    by_cases hi : (i : Int) < (words.length : Int)
    · have hi' : i < words.length := by omega
      have hnext : (i : Int) + (w - o) = ((i + (w - o).toNat : Nat) : Int) := by omega
      have hdrop : words.drop i ≠ [] := by
        intro h
        have := congrArg List.length h
        simp at this
        omega
      obtain ⟨x, xs, hx⟩ := List.exists_cons_of_ne_nil hdrop
      have hwin : windowsFrom w.toNat (w - o).toNat (fuel + 1) (words.drop i)
          = (words.drop i).take w.toNat
            :: windowsFrom w.toNat (w - o).toNat fuel (words.drop (i + (w - o).toNat)) := by
        rw [hx, windowsFrom, ← hx, List.drop_drop, Nat.add_comm]
      rw [chunkLoop, if_pos hi, hnext, ih _ _ (by omega), hwin, renderWindows_cons,
        chunkStep_eq words w (by omega) i hi'.le, List.append_assoc]
    · have hnil : words.drop i = [] := List.drop_eq_nil_of_le (by omega)
      simp [chunkLoop, hi, hnil, windowsFrom, renderWindows]

theorem chunkLoop_none_of_nonpos (words : List (List Char)) (w o : Int) (hstep : w ≤ o)
    (hwords : 0 < words.length) :
    ∀ (fuel : Nat) (i : Int) (acc : List (List Char)), i ≤ 0 →
      chunkLoop words w o fuel i acc = none := by
  intro fuel
  induction fuel with
  | zero =>
    intro i acc hi
    have : i < (words.length : Int) := by omega
    simp [chunkLoop, this]
  | succ fuel ih =>
    intro i acc hi
    have : i < (words.length : Int) := by omega
    rw [chunkLoop, if_pos this]
    exact ih _ _ (by omega)

end LoopFacts

/-! ### Trimming a text does not change its words -/

section TrimFacts

theorem keepWords_cons (t : List Char) (ts : List (List Char)) :
    keepWords (t :: ts) = keepWords [t] ++ keepWords ts := by
  unfold keepWords
  rw [← List.filter_append]
  rfl

theorem keepWords_splitAux_true (l : List Char) :
    keepWords (splitAux true l) = keepWords (splitAux false l) := by
  cases l with
  | nil => rfl
  | cons c cs =>
    by_cases hc : isWhiteSpace c = true
    · simp [splitAux, hc, keepWords]
    · simp [splitAux, hc]

theorem wordsOf_dropWhile (text : List Char) :
    wordsOf (text.dropWhile isWhiteSpace) = wordsOf text := by
  induction text with
  | nil => rfl
  | cons c cs ih =>
    by_cases hc : isWhiteSpace c = true
    · rw [List.dropWhile_cons, if_pos hc, ih]
      simp only [wordsOf, splitWhitespace]
      rw [← keepWords_splitAux_true cs]
      simp [splitAux, hc, keepWords]
    · rw [List.dropWhile_cons, if_neg hc]

theorem splitAux_concat_whitespace (c : Char) (hc : isWhiteSpace c = true) (x : List Char)
    (b : Bool) :
    ∃ h t t', splitAux b (x ++ [c]) = h :: t ∧ splitAux b x = h :: t' ∧
      keepWords t = keepWords t' := by
  induction x generalizing b with
  | nil =>
    cases b
    · exact ⟨[], [[]], [], by simp [splitAux, hc], by simp [splitAux], rfl⟩
    · exact ⟨[], [], [], by simp [splitAux, hc], by simp [splitAux], rfl⟩
  | cons d x ih =>
    by_cases hd : isWhiteSpace d = true
    · obtain ⟨h1, t1, t1', e1, e2, e3⟩ := ih true
      cases b
      · refine ⟨[], h1 :: t1, h1 :: t1', by simp [splitAux, hd, e1], by simp [splitAux, hd, e2],
          ?_⟩
        rw [keepWords_cons, keepWords_cons h1 t1', e3]
      · exact ⟨h1, t1, t1', by simp [splitAux, hd, e1], by simp [splitAux, hd, e2], e3⟩
    · obtain ⟨h1, t1, t1', e1, e2, e3⟩ := ih false
      exact ⟨d :: h1, t1, t1', by simp [splitAux, hd, e1, consHead],
        by simp [splitAux, hd, e2, consHead], e3⟩

theorem wordsOf_concat_whitespace (c : Char) (hc : isWhiteSpace c = true) (x : List Char) :
    wordsOf (x ++ [c]) = wordsOf x := by
  obtain ⟨h, t, t', e1, e2, e3⟩ := splitAux_concat_whitespace c hc x false
  simp only [wordsOf, splitWhitespace, e1, e2]
  rw [keepWords_cons, keepWords_cons h t', e3]

theorem wordsOf_rdropWhile (text : List Char) :
    wordsOf (text.rdropWhile isWhiteSpace) = wordsOf text := by
  induction text using List.reverseRecOn with
  | nil => rfl
  | append_singleton x c ih =>
    by_cases hc : isWhiteSpace c = true
    · rw [List.rdropWhile_concat_pos _ _ _ hc, ih, wordsOf_concat_whitespace c hc]
    · rw [List.rdropWhile_concat_neg _ _ _ hc]

theorem wordsOf_trim (text : List Char) : wordsOf (trim text) = wordsOf text := by
  unfold trim
  rw [wordsOf_rdropWhile, wordsOf_dropWhile]

theorem trim_trim (text : List Char) : trim (trim text) = trim text := by
  unfold trim
  have h : ((text.dropWhile isWhiteSpace).rdropWhile isWhiteSpace).dropWhile isWhiteSpace
      = (text.dropWhile isWhiteSpace).rdropWhile isWhiteSpace := by
    obtain ⟨r, hr⟩ := List.rdropWhile_prefix isWhiteSpace (text.dropWhile isWhiteSpace)
    cases hx : (text.dropWhile isWhiteSpace).rdropWhile isWhiteSpace with
    | nil => rfl
    | cons y ys =>
      rw [hx] at hr
      have hhead := List.head?_dropWhile_not isWhiteSpace text
      rw [← hr] at hhead
      have hy : isWhiteSpace y = false := by simpa using hhead
      rw [List.dropWhile_cons_of_neg (by simp [hy])]
  rw [h, List.rdropWhile_idempotent]

theorem joinSpace_consHead (c : Char) (ts : List (List Char)) (h : ts ≠ []) :
    joinSpace (consHead c ts) = c :: joinSpace ts := by
  cases ts with
  | nil => exact absurd rfl h
  | cons t ts =>
    cases ts with
    | nil => rfl
    | cons u us => rfl

theorem joinSpace_nil_cons (ts : List (List Char)) (h : ts ≠ []) :
    joinSpace ([] :: ts) = ' ' :: joinSpace ts := by
  cases ts with
  | nil => exact absurd rfl h
  | cons t ts => rfl

/-- A text whose whitespace runs are single spaces is rebuilt by joining its tokens. -/
theorem joinSpace_splitWhitespace_of_singleSpaced (text : List Char)
    (h : singleSpaced text = true) : joinSpace (splitWhitespace text) = text := by
  unfold splitWhitespace
  induction text with
  | nil => rfl
  | cons c cs ih =>
    have hcs : singleSpaced cs = true := by
      cases cs with
      | nil => rfl
      | cons d rest =>
        simp only [singleSpaced, Bool.and_eq_true] at h
        exact h.2
    by_cases hc : isWhiteSpace c = true
    · have hsp : c = ' ' := by
        cases cs with
        | nil => simpa [singleSpaced, hc] using h
        | cons d rest =>
          simp only [singleSpaced, hc] at h
          simp only [Bool.not_true, Bool.false_or, Bool.and_eq_true, beq_iff_eq] at h
          exact h.1.1
      have htrue : splitAux true cs = splitAux false cs := by
        cases cs with
        | nil => rfl
        | cons d rest =>
          have hd : isWhiteSpace d = false := by
            simp only [singleSpaced, hc] at h
            simp only [Bool.not_true, Bool.false_or, Bool.and_eq_true, beq_iff_eq] at h
            simpa using h.1.2
          simp [splitAux, hd]
      have : splitAux false (c :: cs) = [] :: splitAux false cs := by
        simp [splitAux, hc, htrue]
      rw [this, joinSpace_nil_cons _ (splitAux_ne_nil false cs), ih hcs, hsp]
    · have : splitAux false (c :: cs) = consHead c (splitAux false cs) := by
        simp [splitAux, hc]
      rw [this, joinSpace_consHead _ _ (splitAux_ne_nil false cs), ih hcs]

/-- A text with a character that is not whitespace has a word. -/
theorem keepWords_splitAux_ne_nil (b : Bool) (l : List Char)
    (h : ∃ c ∈ l, isWhiteSpace c = false) : keepWords (splitAux b l) ≠ [] := by
  induction l generalizing b with
  | nil => simp at h
  | cons c cs ih =>
    by_cases hc : isWhiteSpace c = true
    · have hcs : ∃ d ∈ cs, isWhiteSpace d = false := by
        obtain ⟨d, hd, hd2⟩ := h
        rcases List.mem_cons.1 hd with rfl | hd
        · rw [hc] at hd2; cases hd2
        · exact ⟨d, hd, hd2⟩
      cases b
      · have : splitAux false (c :: cs) = [] :: splitAux true cs := by simp [splitAux, hc]
        rw [this, keepWords_cons]
        simpa [keepWords] using ih true hcs
      · have : splitAux true (c :: cs) = splitAux true cs := by simp [splitAux, hc]
        rw [this]
        exact ih true hcs
    · cases hs : splitAux false cs with
      | nil => exact absurd hs (splitAux_ne_nil false cs)
      | cons w ws =>
        have : splitAux b (c :: cs) = (c :: w) :: ws := by simp [splitAux, hc, hs, consHead]
        rw [this]
        simp [keepWords]

theorem joinSpace_ne_nil (ts : List (List Char)) (h : ts ≠ []) (hne : ∀ t ∈ ts, t ≠ []) :
    joinSpace ts ≠ [] := by
  cases ts with
  | nil => exact absurd rfl h
  | cons t ts =>
    have ht := hne t (by simp)
    cases ts with
    | nil => simpa [joinSpace] using ht
    | cons u us => rw [joinSpace_cons_cons]; simp [ht]

theorem mem_keepWords_ne_nil (ts : List (List Char)) : ∀ t ∈ keepWords ts, t ≠ [] := by
  intro t ht
  have := (List.mem_filter.1 ht).2
  cases t <;> simp_all

end TrimFacts

/-! ### Claims about `chunkText`: short texts and the missing guard -/

section ChunkClaims

theorem chunkLoop_done (words : List (List Char)) (w o : Int) (fuel : Nat) (i : Int)
    (acc : List (List Char)) (hi : ¬ i < (words.length : Int)) :
    chunkLoop words w o fuel i acc = some acc := by
  cases fuel <;> simp [chunkLoop, hi]

/-- C3 (counterexample): `"a b"` has two words and `chunkSize = 2 > overlap = 1`, yet there are
two chunks; `"a  b"` yields the chunk `"a b"`, which is not the trimmed text; `" a b"` has two
words and `chunkSize = 2`, yet there are two chunks; the empty text yields no chunk. -/
theorem chunkText_short_text_not_one_trimmed_chunk :
    (wordsOf "a b".toList).length = 2 ∧
      chunkText "a b".toList 2 1 5 = some ["a b".toList, "b".toList] ∧
      chunkText "a  b".toList 5 0 5 = some ["a b".toList] ∧
      trim "a  b".toList = "a  b".toList ∧
      chunkText " a b".toList 2 0 5 = some ["a".toList, "b".toList] ∧
      chunkText "".toList 5 0 5 = some [] := by
  decide

/-- C3 (amended): for a text with a non-whitespace character whose token array
`text.split(/\s+/)` has at most `chunkSize - overlap` entries (`chunkSize > overlap >= 0`),
`chunkText` returns after one iteration with exactly one chunk, the words of the text joined by
single spaces; that chunk is the trimmed text when the whitespace runs of the trimmed text are
single spaces. -/
theorem chunkText_short_text (text : List Char) (w o : Int) (ho : 0 ≤ o) (hw : o < w)
    (hlen : ((splitWhitespace text).length : Int) ≤ w - o)
    (hne : ∃ c ∈ text, isWhiteSpace c = false) :
    (∀ fuel, 1 ≤ fuel → chunkText text w o fuel = some [joinSpace (wordsOf text)]) ∧
      (singleSpaced (trim text) = true → joinSpace (wordsOf text) = trim text) := by
  constructor
  · intro fuel hfuel
    obtain ⟨f, rfl⟩ : ∃ f, fuel = f + 1 := ⟨fuel - 1, by omega⟩
    have hpos := length_splitWhitespace_pos text
    have h0 : (0 : Int) < ((splitWhitespace text).length : Int) := by omega
    have hstep := chunkStep_eq (splitWhitespace text) w (by omega) 0 (Nat.zero_le _) []
    have htake : ((splitWhitespace text).drop 0).take w.toNat = splitWhitespace text := by
      rw [List.drop_zero, List.take_of_length_le (by omega)]
    have hwords : wordsOf text ≠ [] := keepWords_splitAux_ne_nil false text hne
    have hchunk : 0 < (joinSpace (wordsOf text)).length :=
      List.length_pos.2 (joinSpace_ne_nil _ hwords (mem_keepWords_ne_nil _))
    rw [htake] at hstep
    simp only [renderWindows, List.map_cons, List.map_nil, trim_joinSpace_splitWhitespace,
      List.filter_cons, hchunk, decide_True, if_true, List.filter_nil, List.nil_append,
      Nat.cast_zero] at hstep
    rw [chunkText, chunkLoop, if_pos h0, hstep]
    exact chunkLoop_done _ _ _ _ _ _ (by omega)
  · intro hs
    rw [← wordsOf_trim text, ← trim_joinSpace_splitWhitespace (trim text),
      joinSpace_splitWhitespace_of_singleSpaced _ hs, trim_trim]

/-- Witness for C3: a text of three words with the default sizes `500` and `50`. -/
theorem chunkText_short_text_witness :
    chunkText "  paid time off\n".toList 500 50 1
        = some [joinSpace (wordsOf "  paid time off\n".toList)] ∧
      joinSpace (wordsOf "  paid time off\n".toList) = trim "  paid time off\n".toList ∧
      trim "  paid time off\n".toList = "paid time off".toList :=
  ⟨(chunkText_short_text "  paid time off\n".toList 500 50 (by decide) (by decide) (by decide)
      ⟨'p', by decide, by decide⟩).1 1 (le_refl 1),
    (chunkText_short_text "  paid time off\n".toList 500 50 (by decide) (by decide) (by decide)
      ⟨'p', by decide, by decide⟩).2 (by decide),
    by decide⟩

/-- C5 (counterexample): with `chunkSize = overlap = 1` on the text `"a"` no error is raised
and the loop does not return, whatever the number of iterations allowed. -/
theorem chunkText_equal_overlap_never_returns :
    ¬ ∃ fuel, (chunkText "a".toList 1 1 fuel).isSome = true := by
  rintro ⟨fuel, h⟩
  have hnone : chunkText "a".toList 1 1 fuel = none :=
    chunkLoop_none_of_nonpos _ 1 1 (le_refl 1) (length_splitWhitespace_pos _) fuel 0 []
      (le_refl 0)
  rw [hnone] at h
  cases h

/-- C5 (amended): `chunkText` checks nothing before its loop; for every text and every
`overlap >= chunkSize` the loop runs with the non-positive step `chunkSize - overlap` and its
condition still holds after any number of iterations: the call does not terminate. -/
theorem chunkText_nonpositive_step_diverges (text : List Char) (w o : Int) (h : w ≤ o)
    (fuel : Nat) : chunkText text w o fuel = none :=
  chunkLoop_none_of_nonpos _ w o h (length_splitWhitespace_pos text) fuel 0 [] (le_refl 0)

/-- Witness for C5: `chunkSize = 2`, `overlap = 3`, a thousand iterations. -/
theorem chunkText_nonpositive_step_diverges_witness :
    chunkText "a b c".toList 2 3 1000 = none :=
  chunkText_nonpositive_step_diverges "a b c".toList 2 3 (by decide) 1000

end ChunkClaims

/-! ### Consecutive windows share their overlap -/

section OverlapFacts

theorem keepWords_append (xs ys : List (List Char)) :
    keepWords (xs ++ ys) = keepWords xs ++ keepWords ys := by
  unfold keepWords
  exact List.filter_append _ _

theorem keepWords_eq_self {xs : List (List Char)} (h : ∀ t ∈ xs, t ≠ []) :
    keepWords xs = xs := by
  unfold keepWords
  rw [List.filter_eq_self]
  intro t ht
  have := h t ht
  cases t <;> simp_all

theorem length_keepWords_le (xs : List (List Char)) : (keepWords xs).length ≤ xs.length :=
  List.length_filter_le _ _

theorem ne_nil_of_length_keepWords {xs : List (List Char)}
    (h : xs.length ≤ (keepWords xs).length) : ∀ t ∈ xs, t ≠ [] := by
  induction xs with
  | nil => simp
  | cons x xs ih =>
    rw [keepWords_cons] at h
    have h1 := length_keepWords_le xs
    have h2 : (keepWords [x]).length ≤ 1 := length_keepWords_le [x]
    simp only [List.length_append, List.length_cons] at h
    intro t ht
    rcases List.mem_cons.1 ht with rfl | ht
    · intro hx
      subst hx
      have hx0 : (keepWords [([] : List Char)]).length = 0 := rfl
      omega
    · exact ih (by omega) t ht

/-- Two consecutive windows: the later one starts `s` tokens after the earlier one and both
have length `s + o`. -/
theorem overlapBy_windows (s o : Nat) (xs : List (List Char))
    (hin : InnerNonempty (xs.drop s)) :
    OverlapBy o (keepWords (xs.take (s + o))) (keepWords ((xs.drop s).take (s + o))) := by
  intro hlen
  have hB : (xs.drop s).take (s + o)
      = (xs.drop s).take o ++ ((xs.drop s).drop o).take s := by
    rw [Nat.add_comm, List.take_add]
  have hA : xs.take (s + o) = xs.take s ++ (xs.drop s).take o := List.take_add _ _ _
  have hBlen : o ≤ ((xs.drop s).take (s + o)).length :=
    le_trans hlen (length_keepWords_le _)
  have hys : o ≤ (xs.drop s).length := by
    rw [List.length_take] at hBlen
    omega
  have hXlen : ((xs.drop s).take o).length = o := by
    rw [List.length_take]; omega
  have hX : ∀ t ∈ (xs.drop s).take o, t ≠ [] := by
    rcases Nat.lt_or_ge o (xs.drop s).length with hlt | hge
    · intro t ht
      apply hin t
      rw [List.dropLast_eq_take]
      have : (xs.drop s).take o = ((xs.drop s).take ((xs.drop s).length - 1)).take o := by
        rw [List.take_take, Nat.min_eq_left (by omega)]
      rw [this] at ht
      exact List.mem_of_mem_take ht
    · have hall : (xs.drop s).take (s + o) = xs.drop s :=
        List.take_of_length_le (by omega)
      have hall2 : (xs.drop s).take o = xs.drop s := List.take_of_length_le hge
      rw [hall2]
      rw [hall] at hlen
      exact ne_nil_of_length_keepWords (by omega)
  have hkX : keepWords ((xs.drop s).take o) = (xs.drop s).take o := keepWords_eq_self hX
  rw [hA, hB, keepWords_append, keepWords_append, hkX, List.length_append, hXlen,
    Nat.add_sub_cancel, List.drop_left, List.take_left' hXlen]

/-- The relation `OverlapBy` holds along the windows of the sliding loop. -/
theorem chain_windowsFrom (s o : Nat) :
    ∀ (fuel : Nat) (xs : List (List Char)), InnerNonempty (xs.drop s) →
      List.Chain' (fun a b => OverlapBy o (keepWords a) (keepWords b))
        (windowsFrom (s + o) s fuel xs) := by
  intro fuel
  induction fuel with
  | zero => intro xs _; simp [windowsFrom]
  | succ fuel ih =>
    intro xs hin
    cases xs with
    | nil => simp [windowsFrom]
    | cons x xs =>
      rw [windowsFrom, List.chain'_cons']
      refine ⟨?_, ih _ (hin.drop s)⟩
      intro b hb
      cases fuel with
      | zero => simp [windowsFrom] at hb
      | succ fuel =>
        cases hys : (x :: xs).drop s with
        | nil => rw [hys] at hb; simp [windowsFrom] at hb
        | cons y ys =>
          rw [hys] at hb
          simp only [windowsFrom, List.head?_cons, Option.mem_def, Option.some.injEq] at hb
          subst hb
          rw [← hys]
          exact overlapBy_windows s o (x :: xs) hin

/-- Leaving out the empty word lists keeps the overlap relation between neighbours. -/
theorem chain_filter_overlapBy (o : Nat) (l : List (List (List Char)))
    (h : List.Chain' (OverlapBy o) l) :
    List.Chain' (OverlapBy o) (l.filter fun ws => !ws.isEmpty) := by
  have hskip : ∀ X Z : List (List Char), OverlapBy o [] Z → OverlapBy o X Z := by
    intro X Z hZ hlen
    have h1 := hZ hlen
    have h2 : o = 0 := by
      have := congrArg List.length h1
      simp only [List.drop_nil, List.length_nil, List.length_take] at this
      omega
    subst h2
    simp
  have hchain : ∀ (l : List (List (List Char))) (a : List (List Char)),
      List.Chain (OverlapBy o) a l →
      List.Chain (OverlapBy o) a (l.filter fun ws => !ws.isEmpty) := by
    intro l
    induction l with
    | nil => intro a _; exact List.Chain.nil
    | cons b l ih =>
      intro a hab
      obtain ⟨h1, h2⟩ := List.chain_cons.1 hab
      cases b with
      | nil =>
        have : List.Chain (OverlapBy o) a l := by
          cases l with
          | nil => exact List.Chain.nil
          | cons c l =>
            obtain ⟨h3, h4⟩ := List.chain_cons.1 h2
            exact List.chain_cons.2 ⟨hskip a c h3, h4⟩
        simpa using ih a this
      | cons t b =>
        simp only [List.filter_cons, List.isEmpty_cons, Bool.not_false, if_true]
        exact List.chain_cons.2 ⟨h1, ih _ h2⟩
  induction l with
  | nil => exact List.chain'_nil
  | cons a l ih =>
    cases a with
    | nil =>
      simp only [List.filter_cons, List.isEmpty_nil, Bool.not_true]
      exact ih h.tail
    | cons t a =>
      simp only [List.filter_cons, List.isEmpty_cons, Bool.not_false, if_true]
      exact hchain l _ h

end OverlapFacts

/-! ### Claim about the overlap of consecutive chunks -/

section OverlapClaims

theorem sublist_of_mem_windowsFrom {β : Type} (size step : Nat) :
    ∀ (fuel : Nat) (xs a : List β), a ∈ windowsFrom size step fuel xs → a.Sublist xs := by
  intro fuel
  induction fuel with
  | zero => intro xs a h; simp [windowsFrom] at h
  | succ fuel ih =>
    intro xs a h
    cases xs with
    | nil => simp [windowsFrom] at h
    | cons x xs =>
      rw [windowsFrom] at h
      rcases List.mem_cons.1 h with rfl | h
      · exact List.take_sublist _ _
      · exact (ih _ _ h).trans (List.drop_sublist _ _)

theorem trim_joinSpace_eq_nil_iff (ts : List (List Char)) (h : WsFree ts) :
    trim (joinSpace ts) = [] ↔ keepWords ts = [] := by
  constructor
  · intro h0
    rw [← wordsOf_trim_joinSpace ts h, h0]
    rfl
  · intro h0
    have hall : ∀ t ∈ ts, List.isEmpty t = true := by
      intro t ht
      by_contra hne
      have : t ∈ keepWords ts := List.mem_filter.2 ⟨ht, by simpa using hne⟩
      rw [h0] at this
      simp at this
    have hd : ts.dropWhile List.isEmpty = [] := List.dropWhile_eq_nil_iff.2 hall
    rw [trim_joinSpace ts h, hd]
    rfl

/-- The word lists of the chunks pushed for a list of windows are the non-empty ones among the
lists of non-empty tokens of the windows. -/
theorem map_wordsOf_renderWindows (windows : List (List (List Char)))
    (h : ∀ a ∈ windows, WsFree a) :
    (renderWindows windows).map wordsOf
      = (windows.map keepWords).filter fun ws => !ws.isEmpty := by
  induction windows with
  | nil => rfl
  | cons a l ih =>
    have ha : WsFree a := h a (by simp)
    have hl := ih (fun b hb => h b (by simp [hb]))
    rw [renderWindows_cons, List.map_append, hl]
    by_cases hk : keepWords a = []
    · have h0 : trim (joinSpace a) = [] := (trim_joinSpace_eq_nil_iff a ha).2 hk
      simp [renderWindows, h0, hk]
    · have h0 : trim (joinSpace a) ≠ [] := fun h0 => hk ((trim_joinSpace_eq_nil_iff a ha).1 h0)
      have h1 : 0 < (trim (joinSpace a)).length := List.length_pos.2 h0
      have h2 : (keepWords a).isEmpty = false := by
        cases hka : keepWords a with
        | nil => exact absurd hka hk
        | cons _ _ => rfl
      simp [renderWindows, h1, h2, wordsOf_trim_joinSpace a ha]

/-- C4 (counterexample): `"a b c"` with `chunkSize = 4`, `overlap = 3` yields the chunks
`"a b c"`, `"b c"`, `"c"`; the second chunk is not the final one, and it has two words only, so
the last three words of the first chunk are not its first three words. -/
theorem chunkText_overlap_short_inner_chunk :
    chunkText "a b c".toList 4 3 5 = some ["a b c".toList, "b c".toList, "c".toList] ∧
      (wordsOf "a b c".toList).drop ((wordsOf "a b c".toList).length - 3)
        ≠ (wordsOf "b c".toList).take 3 ∧
      (wordsOf "b c".toList).length = 2 := by
  decide

/-- C4 (amended): for every text and all integers `w > o >= 0`, `chunkText` returns (within as
many iterations as the text has tokens) chunks in which every pair of consecutive chunks whose
later member has at least `o` words overlaps by exactly `o` words: the last `o` words of the
earlier chunk are the first `o` words of the later chunk. -/
theorem chunkText_consecutive_overlap (text : List Char) (w o : Int) (ho : 0 ≤ o) (hw : o < w)
    (fuel : Nat) (hfuel : (splitWhitespace text).length ≤ fuel) :
    ∃ chunks, chunkText text w o fuel = some chunks ∧
      List.Chain' (fun c d => OverlapBy o.toNat (wordsOf c) (wordsOf d)) chunks := by
  have hloop := chunkLoop_eq (splitWhitespace text) w o ho hw fuel 0 [] (by omega)
  simp only [Nat.cast_zero, List.drop_zero, List.nil_append] at hloop
  refine ⟨_, hloop, ?_⟩
  have hsize : w.toNat = (w - o).toNat + o.toNat := by omega
  have hstep : 1 ≤ (w - o).toNat := by omega
  have hinner : InnerNonempty ((splitWhitespace text).drop (w - o).toNat) := by
    have h1 := (splitAux_inner text).2
    have h2 : (splitWhitespace text).drop (w - o).toNat
        = ((splitWhitespace text).tail).drop ((w - o).toNat - 1) := by
      rw [← List.drop_one, List.drop_drop]
      congr 1
      omega
    rw [h2]
    exact h1.drop _
  have hws : ∀ a ∈ windowsFrom w.toNat (w - o).toNat fuel (splitWhitespace text), WsFree a :=
    fun a ha => (wsFree_splitWhitespace text).sublist (sublist_of_mem_windowsFrom _ _ _ _ _ ha)
  rw [← List.chain'_map wordsOf, map_wordsOf_renderWindows _ hws]
  apply chain_filter_overlapBy
  rw [List.chain'_map keepWords, hsize]
  exact chain_windowsFrom _ _ fuel _ hinner

/-- Witness for C4: seven words, `chunkSize = 3`, `overlap = 1`. -/
theorem chunkText_consecutive_overlap_witness :
    ∃ chunks, chunkText "a b c d e f g".toList 3 1 7 = some chunks ∧
      List.Chain' (fun c d => OverlapBy (1 : Int).toNat (wordsOf c) (wordsOf d)) chunks :=
  chunkText_consecutive_overlap "a b c d e f g".toList 3 1 (by decide) (by decide) 7
    (by decide)

end OverlapClaims

/-! ### Claims about `calculateCost` -/

section CostClaims

/-- C9 (failing input): `"constructor"` is not an entry of the price table, but
`pricing["constructor"]` is the inherited, truthy property of `Object.prototype`; the guard
`!pricing[model]` does not fire, both prices are `undefined` and the cost is `NaN`, not `0`. -/
theorem calculateCost_inherited_key_nan :
    pricing "constructor" = PriceLookup.inherited ∧
      calculateCost ⟨1000, 500, 1500⟩ "constructor" = JSNum.nan ∧
      calculateCost ⟨1000, 500, 1500⟩ "constructor" ≠ JSNum.fin 0 := by
  have h : calculateCost ⟨1000, 500, 1500⟩ "constructor" = JSNum.nan := by
    simp [calculateCost, pricing, objectPrototypeKeys, PriceLookup.truthy,
      PriceLookup.inputPrice, PriceLookup.outputPrice, JSNum.mul, JSNum.div, JSNum.add]
  refine ⟨by decide, h, ?_⟩
  rw [h]
  exact fun h0 => JSNum.noConfusion h0

/-- The part of C9 that the code satisfies: the two entries of the table are priced per 1000
tokens, `1000` prompt and `500` completion tokens on `"gpt-3.5-turbo"` cost `0.0025`, and a
model name that is neither an entry nor a property of `Object.prototype` costs `0`. -/
theorem calculateCost_table (usage : Usage) :
    calculateCost usage "gpt-3.5-turbo"
        = JSNum.fin (usage.prompt_tokens / 1000 * 0.0015
            + usage.completion_tokens / 1000 * 0.002) ∧
      calculateCost usage "text-embedding-3-small"
        = JSNum.fin (usage.prompt_tokens / 1000 * 0.00002
            + usage.completion_tokens / 1000 * 0) ∧
      calculateCost ⟨1000, 500, 1500⟩ "gpt-3.5-turbo" = JSNum.fin 0.0025 ∧
      (∀ model : String, model ≠ "gpt-3.5-turbo" → model ≠ "text-embedding-3-small" →
        model ∉ objectPrototypeKeys → calculateCost usage model = JSNum.fin 0) := by
  refine ⟨?_, ?_, ?_, ?_⟩
  · simp [calculateCost, pricing, PriceLookup.truthy, PriceLookup.inputPrice,
      PriceLookup.outputPrice, JSNum.mul, JSNum.div, JSNum.add]
  · simp [calculateCost, pricing, PriceLookup.truthy, PriceLookup.inputPrice,
      PriceLookup.outputPrice, JSNum.mul, JSNum.div, JSNum.add]
  · norm_num [calculateCost, pricing, PriceLookup.truthy, PriceLookup.inputPrice,
      PriceLookup.outputPrice, JSNum.mul, JSNum.div, JSNum.add]
  · intro model h1 h2 h3
    simp [calculateCost, pricing, h1, h2, h3, PriceLookup.truthy]

end CostClaims

/-! ### Claims about `evaluateRetrieval` -/

section EvaluationClaims

variable {α : Type} [LinearOrderedField α] [FloorRing α]

theorem length_filter_contains_eq_card (expected retrieved : List String)
    (hnd : expected.Nodup) :
    (expected.filter fun source => retrieved.contains source).length
      = (expected.toFinset ∩ retrieved.toFinset).card := by
  rw [← List.toFinset_card_of_nodup (hnd.filter _)]
  congr 1
  ext s
  simp [List.mem_filter]

theorem retrievalAccuracy_eq (toLowerCase : String → String) (test : TestCase)
    (chunks : List (ScoredChunk α)) (answer : String) (hne : test.expectedSources ≠ []) :
    (evaluateRetrieval toLowerCase test chunks answer).retrievalAccuracy
      = JSNum.fin
          (((test.expectedSources.filter fun source =>
              (chunks.map fun chunk => chunk.filename).contains source).length : α)
            / (test.expectedSources.length : α) * 100) := by
  have hn : (test.expectedSources.length : α) ≠ 0 := by
    have := List.length_pos.2 hne
    exact_mod_cast this.ne'
  simp [evaluateRetrieval, JSNum.div, JSNum.mul, hn]

/-- C10: for a test case with non-empty, duplicate-free `expectedSources`, `retrievalAccuracy`
is `100 * |expectedSources ∩ retrieved filenames| / |expectedSources|`, lies in `[0, 100]`, and
is `100` exactly when every expected source is among the retrieved filenames. -/
theorem evaluateRetrieval_retrievalAccuracy (toLowerCase : String → String) (test : TestCase)
    (chunks : List (ScoredChunk α)) (answer : String) (hne : test.expectedSources ≠ [])
    (hnd : test.expectedSources.Nodup) :
    (evaluateRetrieval toLowerCase test chunks answer).retrievalAccuracy
        = JSNum.fin
            (100 * (((test.expectedSources.toFinset
                ∩ (chunks.map fun chunk => chunk.filename).toFinset).card : Nat) : α)
              / (test.expectedSources.length : α)) ∧
      (0 : α) ≤ 100 * (((test.expectedSources.toFinset
                ∩ (chunks.map fun chunk => chunk.filename).toFinset).card : Nat) : α)
              / (test.expectedSources.length : α) ∧
      100 * (((test.expectedSources.toFinset
                ∩ (chunks.map fun chunk => chunk.filename).toFinset).card : Nat) : α)
              / (test.expectedSources.length : α) ≤ 100 ∧
      ((evaluateRetrieval toLowerCase test chunks answer).retrievalAccuracy = JSNum.fin 100 ↔
        ∀ source ∈ test.expectedSources,
          source ∈ chunks.map fun chunk => chunk.filename) := by
  have hpos : 0 < test.expectedSources.length := List.length_pos.2 hne
  have hn : (0 : α) < (test.expectedSources.length : α) := by exact_mod_cast hpos
  have hcard := length_filter_contains_eq_card test.expectedSources
    (chunks.map fun chunk => chunk.filename) hnd
  have hle : (test.expectedSources.toFinset
      ∩ (chunks.map fun chunk => chunk.filename).toFinset).card
        ≤ test.expectedSources.length := by
    rw [← hcard]; exact List.length_filter_le _ _
  have hleα : (((test.expectedSources.toFinset
      ∩ (chunks.map fun chunk => chunk.filename).toFinset).card : Nat) : α)
        ≤ (test.expectedSources.length : α) := by exact_mod_cast hle
  have hacc := retrievalAccuracy_eq toLowerCase test chunks answer hne
  rw [hcard] at hacc
  refine ⟨?_, ?_, ?_, ?_⟩
  · rw [hacc]; congr 1; ring
  · positivity
  · rw [div_le_iff₀ hn]; nlinarith
  · rw [hacc]
    constructor
    · intro h
      have h1 : (((test.expectedSources.toFinset
          ∩ (chunks.map fun chunk => chunk.filename).toFinset).card : Nat) : α)
            / (test.expectedSources.length : α) * 100 = 100 := by
        injection h
      have h2 : (((test.expectedSources.toFinset
          ∩ (chunks.map fun chunk => chunk.filename).toFinset).card : Nat) : α)
            = (test.expectedSources.length : α) := by
        field_simp at h1
        linarith
      have h3 : (test.expectedSources.toFinset
          ∩ (chunks.map fun chunk => chunk.filename).toFinset).card
            = test.expectedSources.length := by exact_mod_cast h2
      rw [← hcard] at h3
      intro source hs
      have h4 := (List.filter_length_eq_length.1 h3) source hs
      simpa using h4
    · intro h
      have h3 : (test.expectedSources.filter fun source =>
          (chunks.map fun chunk => chunk.filename).contains source).length
            = test.expectedSources.length := by
        rw [List.filter_length_eq_length]
        intro source hs
        simpa using h source hs
      rw [hcard] at h3
      rw [h3, div_self hn.ne', one_mul]

/-- Witness for C10: `expectedSources = ["a.txt"]` and the retrieved files `a.txt`, `b.txt`,
`c.txt` give the accuracy `100`. -/
theorem evaluateRetrieval_retrievalAccuracy_witness :
    (evaluateRetrieval id ⟨1, "q", ["a.txt"], ["k"]⟩
        [⟨⟨"a-0", "a.txt", "ta", [1]⟩, JSNum.fin (1 : ℚ)⟩,
          ⟨⟨"b-0", "b.txt", "tb", [1]⟩, JSNum.fin 0⟩,
          ⟨⟨"c-0", "c.txt", "tc", [1]⟩, JSNum.fin 0⟩] "answer").retrievalAccuracy
      = JSNum.fin 100 :=
  (evaluateRetrieval_retrievalAccuracy id ⟨1, "q", ["a.txt"], ["k"]⟩
    [⟨⟨"a-0", "a.txt", "ta", [1]⟩, JSNum.fin (1 : ℚ)⟩,
      ⟨⟨"b-0", "b.txt", "tb", [1]⟩, JSNum.fin 0⟩,
      ⟨⟨"c-0", "c.txt", "tc", [1]⟩, JSNum.fin 0⟩] "answer" (by decide) (by decide)).2.2.2.2
    (by decide)

end EvaluationClaims

/-! ### Rounding and clamping -/

section QualityClaims

variable {α : Type} [LinearOrderedField α] [FloorRing α]

theorem JSNum.max_fin (a b : α) :
    JSNum.max (JSNum.fin a) (JSNum.fin b) = JSNum.fin (Max.max a b) := by
  by_cases h : a < b
  · simp [JSNum.max, JSNum.lt, h, max_eq_right h.le]
  · simp [JSNum.max, JSNum.lt, h, max_eq_left (not_lt.1 h)]

theorem JSNum.min_fin (a b : α) :
    JSNum.min (JSNum.fin a) (JSNum.fin b) = JSNum.fin (Min.min a b) := by
  by_cases h : b < a
  · simp [JSNum.min, JSNum.lt, h, min_eq_right h.le]
  · simp [JSNum.min, JSNum.lt, h, min_eq_left (not_lt.1 h)]

theorem JSNum.round_fin (x : α) :
    JSNum.round (JSNum.fin x) = JSNum.fin ((⌊x + 1 / 2⌋ : Int) : α) := rfl

theorem monotone_roundHalfUp : Monotone fun x : α => ⌊x + 1 / 2⌋ :=
  fun _ _ h => Int.floor_mono (by linarith)

/-- Rounding and then clamping to `[1, 5]` is clamping and then rounding. -/
theorem min_max_round_eq_round_clamp (x : α) :
    JSNum.min (JSNum.fin 5) (JSNum.max (JSNum.fin 1) (JSNum.round (JSNum.fin x)))
      = JSNum.round (JSNum.clamp (JSNum.fin x) (JSNum.fin 1) (JSNum.fin 5)) := by
  have hfloor1 : ⌊((1 : α) + 1 / 2)⌋ = 1 := by
    rw [Int.floor_eq_iff]; constructor <;> norm_num
  have hfloor5 : ⌊((5 : α) + 1 / 2)⌋ = 5 := by
    rw [Int.floor_eq_iff]; constructor <;> norm_num
  have hmono := monotone_roundHalfUp (α := α)
  have hcomm : ⌊Min.min (5 : α) (Max.max 1 x) + 1 / 2⌋
      = Min.min 5 (Max.max 1 ⌊x + 1 / 2⌋) := by
    have h1 := hmono.map_min (a := (5 : α)) (b := Max.max 1 x)
    have h2 := hmono.map_max (a := (1 : α)) (b := x)
    simp only at h1 h2
    rw [h1, h2, hfloor1, hfloor5]
  rw [JSNum.clamp, JSNum.round_fin, JSNum.max_fin, JSNum.min_fin, JSNum.max_fin, JSNum.min_fin,
    JSNum.round_fin, hcomm]
  push_cast
  rfl

end QualityClaims

section QualityClaims2

variable {α : Type} [LinearOrderedField α] [FloorRing α]

/-- Rounding and then clamping to `[1, 5]` yields an integer between `1` and `5`. -/
theorem min_max_round_range (x : α) :
    ∃ n : Int, 1 ≤ n ∧ n ≤ 5 ∧
      JSNum.min (JSNum.fin 5) (JSNum.max (JSNum.fin 1) (JSNum.round (JSNum.fin x)))
        = JSNum.fin (n : α) := by
  refine ⟨Min.min 5 (Max.max 1 ⌊x + 1 / 2⌋), le_min (by norm_num) (le_max_left _ _),
    min_le_left _ _, ?_⟩
  rw [JSNum.round_fin, JSNum.max_fin, JSNum.min_fin]
  push_cast
  rfl

end QualityClaims2

/-! ### Claim about the context block of `answerQueryWithDetails` -/

section ContextClaims

variable {α : Type} [LinearOrderedField α]

theorem mapWithIndex_eq_ofFn {β γ : Type} (f : β → Nat → γ) (i : Nat) (xs : List β) :
    mapWithIndex f i xs = List.ofFn fun j : Fin xs.length => f (xs.get j) (i + j.val) := by
  induction xs generalizing i with
  | nil => simp [mapWithIndex]
  | cons x xs ih =>
    have hsucc : (List.ofFn fun j : Fin (x :: xs).length => f ((x :: xs).get j) (i + j.val))
        = f x i :: List.ofFn fun j : Fin xs.length => f (xs.get j) (i + (j.val + 1)) :=
      List.ofFn_succ _
    rw [mapWithIndex, ih (i + 1), hsucc]
    congr 2
    funext j
    congr 1
    omega

/-- C13: the context block is made of the blocks `"[Source i: filename]\ntext"` of the chunks
in ranked order, joined by `"\n\n---\n\n"`, where the block at 1-based position `j` carries
the number `j`; for no chunk it is the empty string.  The chunks cited are the returned
`sources` array: a successful call hands the provider the prompt built from the context of
`sources`. -/
theorem buildContext_citation_numbers (chunks : List (ScoredChunk α)) :
    buildContext chunks
        = joinWith "\n\n---\n\n"
            (List.ofFn fun j : Fin chunks.length =>
              "[Source " ++ toString (j.val + 1) ++ ": " ++ (chunks.get j).filename ++ "]\n"
                ++ (chunks.get j).text) ∧
      buildContext ([] : List (ScoredChunk α)) = "" ∧
      ∀ (sqrt : α → α) (index : List (IndexRecord α)) (q : List α)
        (getChatCompletion : List Message → Nat → Option Completion) (question : String)
        (r : QueryResult α),
        answerQueryWithDetails sqrt index q getChatCompletion question = Except.ok r →
        r.sources = retrieveRelevantChunks sqrt index q 3 ∧
          ∃ completion,
            getChatCompletion (promptMessages (buildContext r.sources) question) 800
              = some completion ∧ r.answer = completion.content := by
  refine ⟨?_, rfl, ?_⟩
  · rw [buildContext, mapWithIndex_eq_ofFn]
    simp only [Nat.zero_add]
    rfl
  · intro sqrt index q getChatCompletion question r h
    unfold answerQueryWithDetails at h
    cases hc : getChatCompletion
        (promptMessages (buildContext (retrieveRelevantChunks sqrt index q 3)) question) 800 with
    | none => simp [hc] at h
    | some completion =>
      simp only [hc, Except.ok.injEq] at h
      subst h
      exact ⟨rfl, completion, hc, rfl⟩

end ContextClaims

section ContextWitness

/-- Witness for C13: the index `[recA, recC]`, the query `[1, 0]` and a provider that answers;
the returned `sources` are the retrieved chunks and the prompt is built from their context. -/
theorem buildContext_citation_numbers_witness :
    (retrieveRelevantChunks Real.sqrt [recA, recC] [1, 0] 3
        = retrieveRelevantChunks Real.sqrt [recA, recC] [1, 0] 3 ∧
      ∃ completion : Completion,
        (fun (_ : List Message) (_ : Nat) =>
            some (Completion.mk "See [Source 1]." ⟨10, 5, 15⟩ "gpt-3.5-turbo"))
          (promptMessages
            (buildContext (retrieveRelevantChunks Real.sqrt [recA, recC] [1, 0] 3)) "q") 800
          = some completion ∧ "See [Source 1]." = completion.content) ∧
      buildContext (retrieveRelevantChunks Real.sqrt [recA, recC] [1, 0] 3)
        = "[Source 1: c.txt]\ngamma\n\n---\n\n[Source 2: a.txt]\nalpha" := by
  refine ⟨(buildContext_citation_numbers ([] : List (ScoredChunk ℝ))).2.2 Real.sqrt
    [recA, recC] [1, 0]
    (fun _ _ => some (Completion.mk "See [Source 1]." ⟨10, 5, 15⟩ "gpt-3.5-turbo")) "q"
    ⟨"See [Source 1].", retrieveRelevantChunks Real.sqrt [recA, recC] [1, 0] 3, ⟨10, 5, 15⟩,
      calculateCost ⟨10, 5, 15⟩ "gpt-3.5-turbo"⟩ rfl, ?_⟩
  have h : retrieveRelevantChunks Real.sqrt [recA, recC] [1, 0] 3
      = [⟨recC, JSNum.fin 1⟩, ⟨recA, JSNum.fin 0⟩] := by
    simp [retrieveRelevantChunks, scoreChunks, scores_recA, scores_recC, jsSort,
      slice, relIndex, byScoreDesc, keepsOrder, JSNum.sub, JSNum.neg, JSNum.add, JSNum.lt]
  rw [h]
  decide

end ContextWitness

/-! ### Facts about the loop of `runEvaluation` -/

section EvaluatorFacts

variable {α : Type} [LinearOrderedField α] [FloorRing α]

/-- An iteration whose two calls return pushes one record for its test case. -/
theorem evaluationStep_of_succeeds (providers : Providers α) (toLowerCase : String → String)
    (state : EvaluatorState α) (test : TestCase) (i : Nat)
    (h : caseSucceeds providers i test = true) :
    ∃ record : TestResult α, record.test = test ∧
      (evaluationStep providers toLowerCase state test i).results = state.results ++ [record] ∧
      (evaluationStep providers toLowerCase state test i).log
        = state.log ++ [LogEntry.question test.id, LogEntry.completed test.id] := by
  unfold caseSucceeds at h
  unfold evaluationStep
  cases h1 : providers.retrieveRelevantChunks i test.question with
  | error e => simp [h1] at h
  | ok chunks =>
    cases h2 : providers.answerQueryWithDetails i test.question with
    | error e => simp [h1, h2] at h
    | ok result => exact ⟨_, rfl, rfl, by simp⟩

/-- An iteration in which a call throws pushes nothing and writes the error. -/
theorem evaluationStep_of_fails (providers : Providers α) (toLowerCase : String → String)
    (state : EvaluatorState α) (test : TestCase) (i : Nat)
    (h : caseSucceeds providers i test = false) :
    ∃ message : String,
      (evaluationStep providers toLowerCase state test i).results = state.results ∧
      (evaluationStep providers toLowerCase state test i).log
        = state.log ++ [LogEntry.question test.id, LogEntry.error test.id message] := by
  unfold caseSucceeds at h
  unfold evaluationStep
  cases h1 : providers.retrieveRelevantChunks i test.question with
  | error e => exact ⟨e, rfl, by simp⟩
  | ok chunks =>
    cases h2 : providers.answerQueryWithDetails i test.question with
    | error e => exact ⟨e, rfl, by simp⟩
    | ok result => simp [h1, h2] at h

/-- The state after the loop, started at iteration `i` from any state. -/
theorem reduceIdx_evaluationStep (providers : Providers α) (toLowerCase : String → String)
    (tests : List TestCase) (i : Nat) (state : EvaluatorState α) :
    ((reduceIdx (evaluationStep providers toLowerCase) i state tests).log.filterMap
        LogEntry.questionId
      = state.log.filterMap LogEntry.questionId ++ tests.map fun t => t.id) ∧
    ((reduceIdx (evaluationStep providers toLowerCase) i state tests).results.map
        (fun r => r.test)
      = state.results.map (fun r => r.test) ++
          ((tests.enumFrom i).filter fun p => caseSucceeds providers p.1 p.2).map Prod.snd) ∧
    ((reduceIdx (evaluationStep providers toLowerCase) i state tests).log.filterMap
        LogEntry.errorId
      = state.log.filterMap LogEntry.errorId ++
          ((tests.enumFrom i).filter fun p => !caseSucceeds providers p.1 p.2).map
            fun p => p.2.id) := by
  induction tests generalizing i state with
  | nil => simp [reduceIdx]
  | cons t ts ih =>
    obtain ⟨ih1, ih2, ih3⟩ := ih (i + 1) (evaluationStep providers toLowerCase state t i)
    simp only [reduceIdx]
    rw [ih1, ih2, ih3]
    cases hs : caseSucceeds providers i t with
    | true =>
      obtain ⟨record, hrec, hres, hlog⟩ :=
        evaluationStep_of_succeeds providers toLowerCase state t i hs
      rw [hres, hlog]
      simp [List.enumFrom_cons, List.filter_cons, hs, hrec, LogEntry.questionId,
        LogEntry.errorId, List.filterMap_append]
    | false =>
      obtain ⟨message, hres, hlog⟩ :=
        evaluationStep_of_fails providers toLowerCase state t i hs
      rw [hres, hlog]
      simp [List.enumFrom_cons, List.filter_cons, hs, LogEntry.questionId,
        LogEntry.errorId, List.filterMap_append]

theorem generateReport_of_ne_nil (results : List (TestResult α)) (h : results ≠ []) :
    ∃ report, generateReport results = Except.ok report := by
  obtain ⟨r, rs, rfl⟩ := List.exists_cons_of_ne_nil h
  exact ⟨_, rfl⟩

end EvaluatorFacts

/-! ### Claim about `runEvaluation` -/

section EvaluatorClaims

variable {α : Type} [LinearOrderedField α] [FloorRing α]

/-- C12 (counterexample): with one test case whose retrieval throws, the loop catches the
error and writes it to the console, but no result is recorded for the case, and the call
`generateReport()` then throws on the empty `results`, so `runEvaluation` itself fails.  With
two test cases of which the first fails, one result is recorded for two cases. -/
theorem runEvaluation_failure_not_recorded :
    (runEvaluation failingProviders id [sampleTest1]).1.results.length = 0 ∧
      (runEvaluation failingProviders id [sampleTest1]).1.log
        = [LogEntry.question 1, LogEntry.error 1 "Request failed"] ∧
      (runEvaluation failingProviders id [sampleTest1]).2
        = Except.error "TypeError: Reduce of empty array with no initial value" ∧
      ((runEvaluation flakyProviders id [sampleTest1, sampleTest2]).1.results.map
        fun r => r.test.id) = [2] := by
  refine ⟨rfl, rfl, rfl, rfl⟩

/-- C12 (amended): `runEvaluation` processes every test case in order, and a case whose
retrieval or answer generation throws does not abort the loop: its error is written to the
console and nothing is recorded for it.  After the loop `results` holds one record per case
that did not fail, in order, so the records and the error lines together account for every
test case; when at least one case did not fail, the report is generated and the call does not
fail. -/
theorem runEvaluation_continues_past_failures (providers : Providers α)
    (toLowerCase : String → String) (tests : List TestCase) :
    ((runEvaluation providers toLowerCase tests).1.log.filterMap LogEntry.questionId
        = tests.map fun t => t.id) ∧
      ((runEvaluation providers toLowerCase tests).1.results.map (fun r => r.test)
        = (tests.enum.filter fun p => caseSucceeds providers p.1 p.2).map Prod.snd) ∧
      ((runEvaluation providers toLowerCase tests).1.log.filterMap LogEntry.errorId
        = (tests.enum.filter fun p => !caseSucceeds providers p.1 p.2).map fun p => p.2.id) ∧
      ((runEvaluation providers toLowerCase tests).1.results.length
          + ((runEvaluation providers toLowerCase tests).1.log.filterMap
              LogEntry.errorId).length
        = tests.length) ∧
      ((∃ p ∈ tests.enum, caseSucceeds providers p.1 p.2 = true) →
        ∃ report, (runEvaluation providers toLowerCase tests).2 = Except.ok report) := by
  obtain ⟨h1, h2, h3⟩ :=
    reduceIdx_evaluationStep providers toLowerCase tests 0 { results := [], log := [] }
  simp only [List.filterMap_nil, List.map_nil, List.nil_append] at h1 h2 h3
  have hres : (runEvaluation providers toLowerCase tests).1
      = reduceIdx (evaluationStep providers toLowerCase) 0 { results := [], log := [] } tests :=
    rfl
  rw [hres]
  refine ⟨h1, h2, h3, ?_, ?_⟩
  · have hlen := congrArg List.length h2
    rw [List.length_map] at hlen
    rw [hlen, h3, List.length_map, List.length_map]
    have hsplit := @List.length_eq_length_filter_add (Nat × TestCase) (tests.enumFrom 0)
      (fun p => caseSucceeds providers p.1 p.2)
    rw [List.enumFrom_length] at hsplit
    exact hsplit.symm
  · rintro ⟨p, hp, hsucc⟩
    have hne : (reduceIdx (evaluationStep providers toLowerCase) 0
        { results := [], log := [] } tests).results ≠ [] := by
      intro hnil
      have hmem : p.2 ∈ ((tests.enum.filter fun p => caseSucceeds providers p.1 p.2).map
          Prod.snd) :=
        List.mem_map.2 ⟨p, List.mem_filter.2 ⟨hp, hsucc⟩, rfl⟩
      have h2e : (reduceIdx (evaluationStep providers toLowerCase) 0
          { results := [], log := [] } tests).results.map (fun r => r.test)
          = (tests.enum.filter fun p => caseSucceeds providers p.1 p.2).map Prod.snd := h2
      rw [← h2e, hnil] at hmem
      simp at hmem
    exact generateReport_of_ne_nil _ hne

/-- Witness for C12: of two test cases the first fails; the second is recorded and the report
is generated. -/
theorem runEvaluation_continues_past_failures_witness :
    ∃ report, (runEvaluation flakyProviders id [sampleTest1, sampleTest2]).2
      = Except.ok report :=
  (runEvaluation_continues_past_failures flakyProviders id [sampleTest1, sampleTest2]).2.2.2.2
    ⟨(1, sampleTest2), by simp [List.enum], rfl⟩

end EvaluatorClaims

/-! ### Facts about double rounding -/

section DoubleFacts

theorem roundHalfEven_of_floor (x : ℚ) (f : ℤ) (h1 : (f : ℚ) ≤ x) (h2 : x < f + 1) :
    roundHalfEven x
      = if x - f < 1 / 2 then f else if 1 / 2 < x - f then f + 1
        else if f % 2 = 0 then f else f + 1 := by
  have hf : ⌊x⌋ = f := by
    rw [Int.floor_eq_iff]; exact ⟨h1, h2⟩
  simp only [roundHalfEven, hf]

theorem roundHalfEven_nonneg (x : ℚ) (hx : 0 ≤ x) : 0 ≤ roundHalfEven x := by
  have hf : 0 ≤ ⌊x⌋ := Int.floor_nonneg.2 hx
  unfold roundHalfEven
  split_ifs <;> omega

theorem binaryExponent_eq (q : ℚ) (e : ℤ) (he : -1022 ≤ e) (h1 : (2 : ℚ) ^ e ≤ |q|)
    (h2 : |q| < (2 : ℚ) ^ (e + 1)) : binaryExponent q = e := by
  have hpos : 0 < |q| := lt_of_lt_of_le (zpow_pos (by norm_num) e) h1
  have hlog : Int.log 2 |q| = e := by
    apply le_antisymm
    · have := (Int.lt_zpow_iff_log_lt (show (1 : ℕ) < 2 by norm_num) hpos).1 h2
      omega
    · exact (Int.zpow_le_iff_le_log (show (1 : ℕ) < 2 by norm_num) hpos).1 h1
  rw [binaryExponent, hlog, max_eq_left he]

theorem binary64_nonneg (q : ℚ) (hq : 0 ≤ q) : 0 ≤ binary64 q := by
  unfold binary64
  split_ifs with h0
  · exact le_refl 0
  · have hulp : (0 : ℚ) < (2 : ℚ) ^ (binaryExponent q - 52) := zpow_pos (by norm_num) _
    have hr := roundHalfEven_nonneg (q / (2 : ℚ) ^ (binaryExponent q - 52))
      (div_nonneg hq hulp.le)
    have hrq : (0 : ℚ) ≤ (roundHalfEven (q / (2 : ℚ) ^ (binaryExponent q - 52)) : ℚ) := by
      exact_mod_cast hr
    exact mul_nonneg hrq hulp.le

/-- The double nearest to a rational, from its binade and its rounded significand. -/
theorem toDouble_fin_eq (q : ℚ) (e m : ℤ) (he : -1022 ≤ e) (h1 : (2 : ℚ) ^ e ≤ |q|)
    (h2 : |q| < (2 : ℚ) ^ (e + 1)) (hm : roundHalfEven (q / (2 : ℚ) ^ (e - 52)) = m)
    (hfin : |(m : ℚ) * (2 : ℚ) ^ (e - 52)| < (2 : ℚ) ^ (1024 : ℕ)) :
    JSNum.toDouble (JSNum.fin q) = JSNum.fin ((m : ℚ) * (2 : ℚ) ^ (e - 52)) := by
  have hq : q ≠ 0 := by
    intro h
    rw [h, abs_zero] at h1
    exact absurd h1 (not_le.2 (zpow_pos (by norm_num) e))
  have hb : binary64 q = (m : ℚ) * (2 : ℚ) ^ (e - 52) := by
    rw [binary64, if_neg hq, binaryExponent_eq q e he h1 h2, hm]
  rw [JSNum.toDouble, hb, if_neg (not_le.2 hfin)]

theorem JSNum.divD_fin (a b : ℚ) (hb : b ≠ 0) :
    JSNum.divD (JSNum.fin a) (JSNum.fin b) = JSNum.toDouble (JSNum.fin (a / b)) := by
  simp [JSNum.divD, JSNum.div, hb]

theorem JSNum.mulD_fin (a b : ℚ) :
    JSNum.mulD (JSNum.fin a) (JSNum.fin b) = JSNum.toDouble (JSNum.fin (a * b)) := rfl

theorem JSNum.addD_fin (a b : ℚ) :
    JSNum.addD (JSNum.fin a) (JSNum.fin b) = JSNum.toDouble (JSNum.fin (a + b)) := rfl

theorem JSNum.toDouble_fin (x : ℚ) :
    JSNum.toDouble (JSNum.fin x)
      = if (2 : ℚ) ^ (1024 : ℕ) ≤ |binary64 x| then JSNum.signedInf (decide (0 < x))
        else JSNum.fin (binary64 x) := rfl

theorem JSNum.NonnegNum.toDouble {a : JSNum ℚ} (h : JSNum.NonnegNum a) :
    JSNum.NonnegNum (JSNum.toDouble a) := by
  rcases h with rfl | ⟨x, hx, rfl⟩
  · exact Or.inl rfl
  · rw [JSNum.toDouble_fin]
    split_ifs with hbig
    · left
      have hne : x ≠ 0 := by
        intro h0
        rw [h0] at hbig
        simp [binary64] at hbig
        exact absurd hbig (by norm_num)
      have hpos : 0 < x := lt_of_le_of_ne hx (Ne.symm hne)
      simp [JSNum.signedInf, hpos]
    · exact Or.inr ⟨_, binary64_nonneg x hx, rfl⟩

theorem JSNum.NonnegNum.divD_pos {a : JSNum ℚ} (h : JSNum.NonnegNum a) (c : ℚ) (hc : 0 < c) :
    JSNum.NonnegNum (JSNum.divD a (JSNum.fin c)) := by
  apply JSNum.NonnegNum.toDouble
  rcases h with rfl | ⟨x, hx, rfl⟩
  · left; simp [JSNum.div, JSNum.signedInf, hc.le]
  · right; exact ⟨x / c, div_nonneg hx hc.le, by simp [JSNum.div, hc.ne']⟩

theorem JSNum.NonnegNum.mulD_pos {a : JSNum ℚ} (h : JSNum.NonnegNum a) (c : ℚ) (hc : 0 < c) :
    JSNum.NonnegNum (JSNum.mulD a (JSNum.fin c)) := by
  apply JSNum.NonnegNum.toDouble
  rcases h with rfl | ⟨x, hx, rfl⟩
  · left; simp [JSNum.mul, JSNum.signedInf, hc, hc.ne']
  · right; exact ⟨x * c, mul_nonneg hx hc.le, rfl⟩

theorem JSNum.NonnegNum.addD {a b : JSNum ℚ} (ha : JSNum.NonnegNum a)
    (hb : JSNum.NonnegNum b) : JSNum.NonnegNum (JSNum.addD a b) := by
  apply JSNum.NonnegNum.toDouble
  rcases ha with rfl | ⟨x, hx, rfl⟩ <;> rcases hb with rfl | ⟨y, hy, rfl⟩
  · left; rfl
  · left; rfl
  · left; rfl
  · right; exact ⟨x + y, add_nonneg hx hy, rfl⟩

end DoubleFacts

/-! ### Claim about the answer quality, in doubles -/

section QualityDoubleFacts

/-- Rounding and then clamping to `[1, 5]` is clamping and then rounding, on every number. -/
theorem min_max_round_eq_round_clamp_num (s : JSNum ℚ) :
    JSNum.min (JSNum.fin 5) (JSNum.max (JSNum.fin 1) (JSNum.round s))
      = JSNum.round (JSNum.clamp s (JSNum.fin 1) (JSNum.fin 5)) := by
  have hfloor1 : ⌊((1 : ℚ) + 1 / 2)⌋ = 1 := by
    rw [Int.floor_eq_iff]; constructor <;> norm_num
  have hfloor5 : ⌊((5 : ℚ) + 1 / 2)⌋ = 5 := by
    rw [Int.floor_eq_iff]; constructor <;> norm_num
  cases s with
  | fin x => exact min_max_round_eq_round_clamp x
  | posInf =>
    have h1 : JSNum.max (JSNum.fin (1 : ℚ)) JSNum.posInf = JSNum.posInf := rfl
    have h2 : JSNum.min (JSNum.fin (5 : ℚ)) JSNum.posInf = JSNum.fin 5 := rfl
    have h3 : JSNum.round (JSNum.posInf : JSNum ℚ) = JSNum.posInf := rfl
    rw [JSNum.clamp, h3, h1, h2, JSNum.round_fin, hfloor5]
    norm_num
  | negInf =>
    have h1 : JSNum.max (JSNum.fin (1 : ℚ)) JSNum.negInf = JSNum.fin 1 := rfl
    have h3 : JSNum.round (JSNum.negInf : JSNum ℚ) = JSNum.negInf := rfl
    rw [JSNum.clamp, h3, h1, JSNum.min_fin, JSNum.round_fin]
    have hmin : Min.min (5 : ℚ) 1 = 1 := by norm_num
    rw [hmin, hfloor1]
    norm_num
  | nan => rfl

/-- Rounding and then clamping a number that is not negative yields an integer between `1` and
`5`. -/
theorem min_max_round_range_of_nonneg (s : JSNum ℚ) (hs : JSNum.NonnegNum s) :
    ∃ n : Int, 1 ≤ n ∧ n ≤ 5 ∧
      JSNum.min (JSNum.fin 5) (JSNum.max (JSNum.fin 1) (JSNum.round s)) = JSNum.fin (n : ℚ) := by
  rcases hs with rfl | ⟨x, _, rfl⟩
  · exact ⟨5, by norm_num, le_refl 5, by norm_num; rfl⟩
  · exact min_max_round_range x

end QualityDoubleFacts

/-! ### Claim about the answer quality: the program in doubles -/

section QualityDoubleClaims

theorem floor_add_half_eq (x : ℚ) (n : ℤ) (h1 : (n : ℚ) ≤ x + 1 / 2) (h2 : x + 1 / 2 < n + 1) :
    ⌊x + 1 / 2⌋ = n := by
  rw [Int.floor_eq_iff]; exact ⟨h1, h2⟩

/-- The fields of the record in terms of the two counts. -/
theorem evaluateRetrievalDouble_fields (toLowerCase : String → String) (test : TestCase)
    (chunks : List (ScoredChunk ℚ)) (answer : String) :
    (evaluateRetrievalDouble toLowerCase test chunks answer).keywordCoverage
        = JSNum.mulD
            (JSNum.divD
              (JSNum.fin ((test.expectedKeywords.filter fun keyword =>
                includesString (toLowerCase answer) (toLowerCase keyword)).length : ℚ))
              (JSNum.fin (test.expectedKeywords.length : ℚ)))
            (JSNum.fin 100) ∧
      (evaluateRetrievalDouble toLowerCase test chunks answer).retrievalAccuracy
        = JSNum.mulD
            (JSNum.divD
              (JSNum.fin ((test.expectedSources.filter fun source =>
                (chunks.map fun chunk => chunk.filename).contains source).length : ℚ))
              (JSNum.fin (test.expectedSources.length : ℚ)))
            (JSNum.fin 100) ∧
      (evaluateRetrievalDouble toLowerCase test chunks answer).answerQuality
        = JSNum.min (JSNum.fin 5) (JSNum.max (JSNum.fin 1) (JSNum.round
            (JSNum.addD
              (JSNum.mulD
                (JSNum.divD
                  (JSNum.fin ((test.expectedKeywords.filter fun keyword =>
                    includesString (toLowerCase answer) (toLowerCase keyword)).length : ℚ))
                  (JSNum.fin (test.expectedKeywords.length : ℚ)))
                (JSNum.fin 3))
              (JSNum.mulD
                (JSNum.divD
                  (evaluateRetrievalDouble toLowerCase test chunks answer).retrievalAccuracy
                  (JSNum.fin 100))
                (JSNum.fin 2))))) :=
  ⟨rfl, rfl, rfl⟩

/-- The record computed for seven of ten keywords and one of five sources. -/
theorem evaluateRetrievalDouble_sevenOfTen :
    (evaluateRetrievalDouble id sevenOfTenTest oneSourceChunks
        "k0 k1 k2 k3 k4 k5 k6").keywordCoverage = JSNum.fin 70 ∧
      (evaluateRetrievalDouble id sevenOfTenTest oneSourceChunks
        "k0 k1 k2 k3 k4 k5 k6").retrievalAccuracy = JSNum.fin 20 ∧
      (evaluateRetrievalDouble id sevenOfTenTest oneSourceChunks
        "k0 k1 k2 k3 k4 k5 k6").answerQuality = JSNum.fin 2 := by
  have a1 : JSNum.toDouble (JSNum.fin ((7 : ℚ) / 10)) = JSNum.fin (3152519739159347 / 4503599627370496) := by
    rw [toDouble_fin_eq ((7 : ℚ) / 10) (-1) 6305039478318694 (by norm_num) (by norm_num [abs_of_pos])
      (by norm_num [abs_of_pos])
      (by rw [roundHalfEven_of_floor _ 6305039478318694 (by norm_num) (by norm_num)]; norm_num)
      (by norm_num [abs_of_pos])]
    norm_num
  have a2 : JSNum.toDouble (JSNum.fin (3152519739159347 / 4503599627370496 * 3)) = JSNum.fin (1182194902184755 / 562949953421312) := by
    rw [toDouble_fin_eq (3152519739159347 / 4503599627370496 * 3) 1 4728779608739020 (by norm_num) (by norm_num [abs_of_pos])
      (by norm_num [abs_of_pos])
      (by rw [roundHalfEven_of_floor _ 4728779608739020 (by norm_num) (by norm_num)]; norm_num)
      (by norm_num [abs_of_pos])]
    norm_num
  have a3 : JSNum.toDouble (JSNum.fin (3152519739159347 / 4503599627370496 * 100)) = JSNum.fin (70) := by
    rw [toDouble_fin_eq (3152519739159347 / 4503599627370496 * 100) 6 4925812092436480 (by norm_num) (by norm_num [abs_of_pos])
      (by norm_num [abs_of_pos])
      (by rw [roundHalfEven_of_floor _ 4925812092436479 (by norm_num) (by norm_num)]; norm_num)
      (by norm_num [abs_of_pos])]
    norm_num
  have a4 : JSNum.toDouble (JSNum.fin ((1 : ℚ) / 5)) = JSNum.fin (3602879701896397 / 18014398509481984) := by
    rw [toDouble_fin_eq ((1 : ℚ) / 5) (-3) 7205759403792794 (by norm_num) (by norm_num [abs_of_pos])
      (by norm_num [abs_of_pos])
      (by rw [roundHalfEven_of_floor _ 7205759403792793 (by norm_num) (by norm_num)]; norm_num)
      (by norm_num [abs_of_pos])]
    norm_num
  have a5 : JSNum.toDouble (JSNum.fin (3602879701896397 / 18014398509481984 * 100)) = JSNum.fin (20) := by
    rw [toDouble_fin_eq (3602879701896397 / 18014398509481984 * 100) 4 5629499534213120 (by norm_num) (by norm_num [abs_of_pos])
      (by norm_num [abs_of_pos])
      (by rw [roundHalfEven_of_floor _ 5629499534213120 (by norm_num) (by norm_num)]; norm_num)
      (by norm_num [abs_of_pos])]
    norm_num
  have a6 : JSNum.toDouble (JSNum.fin ((20 : ℚ) / 100)) = JSNum.fin (3602879701896397 / 18014398509481984) := by
    rw [toDouble_fin_eq ((20 : ℚ) / 100) (-3) 7205759403792794 (by norm_num) (by norm_num [abs_of_pos])
      (by norm_num [abs_of_pos])
      (by rw [roundHalfEven_of_floor _ 7205759403792793 (by norm_num) (by norm_num)]; norm_num)
      (by norm_num [abs_of_pos])]
    norm_num
  have a7 : JSNum.toDouble (JSNum.fin (3602879701896397 / 18014398509481984 * 2)) = JSNum.fin (3602879701896397 / 9007199254740992) := by
    rw [toDouble_fin_eq (3602879701896397 / 18014398509481984 * 2) (-2) 7205759403792794 (by norm_num) (by norm_num [abs_of_pos])
      (by norm_num [abs_of_pos])
      (by rw [roundHalfEven_of_floor _ 7205759403792794 (by norm_num) (by norm_num)]; norm_num)
      (by norm_num [abs_of_pos])]
    norm_num
  have a8 : JSNum.toDouble (JSNum.fin (1182194902184755 / 562949953421312 + 3602879701896397 / 9007199254740992)) = JSNum.fin (5629499534213119 / 2251799813685248) := by
    rw [toDouble_fin_eq (1182194902184755 / 562949953421312 + 3602879701896397 / 9007199254740992) 1 5629499534213119 (by norm_num) (by norm_num [abs_of_pos])
      (by norm_num [abs_of_pos])
      (by rw [roundHalfEven_of_floor _ 5629499534213119 (by norm_num) (by norm_num)]; norm_num)
      (by norm_num [abs_of_pos])]
    norm_num
  have hkf : (sevenOfTenTest.expectedKeywords.filter fun keyword =>
      includesString (id "k0 k1 k2 k3 k4 k5 k6") (id keyword)).length = 7 := by decide
  have hnk : sevenOfTenTest.expectedKeywords.length = 10 := rfl
  have hef : (sevenOfTenTest.expectedSources.filter fun source =>
      (oneSourceChunks.map fun chunk => chunk.filename).contains source).length = 1 := by
    decide
  have hns : sevenOfTenTest.expectedSources.length = 5 := rfl
  obtain ⟨hk, hr, hq⟩ := evaluateRetrievalDouble_fields id sevenOfTenTest oneSourceChunks
    "k0 k1 k2 k3 k4 k5 k6"
  rw [hr] at hq
  rw [hkf, hnk] at hk hq
  rw [hef, hns] at hr hq
  simp only [Nat.cast_ofNat, Nat.cast_one] at hk hr hq
  refine ⟨?_, ?_, ?_⟩
  · rw [hk, JSNum.divD_fin 7 10 (by norm_num), a1, JSNum.mulD_fin, a3]
  · rw [hr, JSNum.divD_fin 1 5 (by norm_num), a4, JSNum.mulD_fin, a5]
  · rw [hq, JSNum.divD_fin 7 10 (by norm_num), a1, JSNum.mulD_fin, a2,
      JSNum.divD_fin 1 5 (by norm_num), a4, JSNum.mulD_fin, a5,
      JSNum.divD_fin 20 100 (by norm_num), a6, JSNum.mulD_fin, a7, JSNum.addD_fin, a8,
      JSNum.round_fin,
      floor_add_half_eq _ 2 (by norm_num) (by norm_num), JSNum.max_fin, JSNum.min_fin]
    norm_num

end QualityDoubleClaims

section QualityDoubleClaims2

/-- The record computed for one of three keywords and one of four sources, and the formula of
the specification evaluated on its fields, in doubles and exactly. -/
theorem evaluateRetrievalDouble_oneOfThree :
    (evaluateRetrievalDouble id oneOfThreeTest oneSourceChunks "k0").keywordCoverage
        = JSNum.fin (2345624805922133 / 70368744177664) ∧
      (evaluateRetrievalDouble id oneOfThreeTest oneSourceChunks "k0").retrievalAccuracy
        = JSNum.fin 25 ∧
      (evaluateRetrievalDouble id oneOfThreeTest oneSourceChunks "k0").answerQuality
        = JSNum.fin 2 ∧
      answerQualitySpecDouble (JSNum.fin (2345624805922133 / 70368744177664)) (JSNum.fin 25) = JSNum.fin 1 ∧
      answerQualitySpec (JSNum.fin (2345624805922133 / 70368744177664 : ℚ)) (JSNum.fin 25) = JSNum.fin 1 := by
  have b1 : JSNum.toDouble (JSNum.fin ((1 : ℚ) / 3)) = JSNum.fin (6004799503160661 / 18014398509481984) := by
    rw [toDouble_fin_eq ((1 : ℚ) / 3) (-2) 6004799503160661 (by norm_num) (by norm_num [abs_of_pos])
      (by norm_num [abs_of_pos])
      (by rw [roundHalfEven_of_floor _ 6004799503160661 (by norm_num) (by norm_num)]; norm_num)
      (by norm_num [abs_of_pos])]
    norm_num
  have b2 : JSNum.toDouble (JSNum.fin (6004799503160661 / 18014398509481984 * 3)) = JSNum.fin (1) := by
    rw [toDouble_fin_eq (6004799503160661 / 18014398509481984 * 3) (-1) 9007199254740992 (by norm_num) (by norm_num [abs_of_pos])
      (by norm_num [abs_of_pos])
      (by rw [roundHalfEven_of_floor _ 9007199254740991 (by norm_num) (by norm_num)]; norm_num)
      (by norm_num [abs_of_pos])]
    norm_num
  have b3 : JSNum.toDouble (JSNum.fin (6004799503160661 / 18014398509481984 * 100)) = JSNum.fin (2345624805922133 / 70368744177664) := by
    rw [toDouble_fin_eq (6004799503160661 / 18014398509481984 * 100) 5 4691249611844266 (by norm_num) (by norm_num [abs_of_pos])
      (by norm_num [abs_of_pos])
      (by rw [roundHalfEven_of_floor _ 4691249611844266 (by norm_num) (by norm_num)]; norm_num)
      (by norm_num [abs_of_pos])]
    norm_num
  have b4 : JSNum.toDouble (JSNum.fin ((1 : ℚ) / 4)) = JSNum.fin (1 / 4) := by
    rw [toDouble_fin_eq ((1 : ℚ) / 4) (-2) 4503599627370496 (by norm_num) (by norm_num [abs_of_pos])
      (by norm_num [abs_of_pos])
      (by rw [roundHalfEven_of_floor _ 4503599627370496 (by norm_num) (by norm_num)]; norm_num)
      (by norm_num [abs_of_pos])]
    norm_num
  have b5 : JSNum.toDouble (JSNum.fin (1 / 4 * 100)) = JSNum.fin (25) := by
    rw [toDouble_fin_eq (1 / 4 * 100) 4 7036874417766400 (by norm_num) (by norm_num [abs_of_pos])
      (by norm_num [abs_of_pos])
      (by rw [roundHalfEven_of_floor _ 7036874417766400 (by norm_num) (by norm_num)]; norm_num)
      (by norm_num [abs_of_pos])]
    norm_num
  have b6 : JSNum.toDouble (JSNum.fin ((25 : ℚ) / 100)) = JSNum.fin (1 / 4) := by
    rw [toDouble_fin_eq ((25 : ℚ) / 100) (-2) 4503599627370496 (by norm_num) (by norm_num [abs_of_pos])
      (by norm_num [abs_of_pos])
      (by rw [roundHalfEven_of_floor _ 4503599627370496 (by norm_num) (by norm_num)]; norm_num)
      (by norm_num [abs_of_pos])]
    norm_num
  have b7 : JSNum.toDouble (JSNum.fin (1 / 4 * 2)) = JSNum.fin (1 / 2) := by
    rw [toDouble_fin_eq (1 / 4 * 2) (-1) 4503599627370496 (by norm_num) (by norm_num [abs_of_pos])
      (by norm_num [abs_of_pos])
      (by rw [roundHalfEven_of_floor _ 4503599627370496 (by norm_num) (by norm_num)]; norm_num)
      (by norm_num [abs_of_pos])]
    norm_num
  have b8 : JSNum.toDouble (JSNum.fin (1 + 1 / 2)) = JSNum.fin (3 / 2) := by
    rw [toDouble_fin_eq (1 + 1 / 2) 0 6755399441055744 (by norm_num) (by norm_num [abs_of_pos])
      (by norm_num [abs_of_pos])
      (by rw [roundHalfEven_of_floor _ 6755399441055744 (by norm_num) (by norm_num)]; norm_num)
      (by norm_num [abs_of_pos])]
    norm_num
  have b9 : JSNum.toDouble (JSNum.fin (2345624805922133 / 70368744177664 / 100)) = JSNum.fin (1501199875790165 / 4503599627370496) := by
    rw [toDouble_fin_eq (2345624805922133 / 70368744177664 / 100) (-2) 6004799503160660 (by norm_num) (by norm_num [abs_of_pos])
      (by norm_num [abs_of_pos])
      (by rw [roundHalfEven_of_floor _ 6004799503160660 (by norm_num) (by norm_num)]; norm_num)
      (by norm_num [abs_of_pos])]
    norm_num
  have b10 : JSNum.toDouble (JSNum.fin (1501199875790165 / 4503599627370496 * 3)) = JSNum.fin (4503599627370495 / 4503599627370496) := by
    rw [toDouble_fin_eq (1501199875790165 / 4503599627370496 * 3) (-1) 9007199254740990 (by norm_num) (by norm_num [abs_of_pos])
      (by norm_num [abs_of_pos])
      (by rw [roundHalfEven_of_floor _ 9007199254740990 (by norm_num) (by norm_num)]; norm_num)
      (by norm_num [abs_of_pos])]
    norm_num
  have b11 : JSNum.toDouble (JSNum.fin (4503599627370495 / 4503599627370496 + 1 / 2)) = JSNum.fin (6755399441055743 / 4503599627370496) := by
    rw [toDouble_fin_eq (4503599627370495 / 4503599627370496 + 1 / 2) 0 6755399441055743 (by norm_num) (by norm_num [abs_of_pos])
      (by norm_num [abs_of_pos])
      (by rw [roundHalfEven_of_floor _ 6755399441055743 (by norm_num) (by norm_num)]; norm_num)
      (by norm_num [abs_of_pos])]
    norm_num
  have hkf : (oneOfThreeTest.expectedKeywords.filter fun keyword =>
      includesString (id "k0") (id keyword)).length = 1 := by decide
  have hnk : oneOfThreeTest.expectedKeywords.length = 3 := rfl
  have hef : (oneOfThreeTest.expectedSources.filter fun source =>
      (oneSourceChunks.map fun chunk => chunk.filename).contains source).length = 1 := by
    decide
  have hns : oneOfThreeTest.expectedSources.length = 4 := rfl
  obtain ⟨hk, hr, hq⟩ := evaluateRetrievalDouble_fields id oneOfThreeTest oneSourceChunks "k0"
  rw [hr] at hq
  rw [hkf, hnk] at hk hq
  rw [hef, hns] at hr hq
  simp only [Nat.cast_ofNat, Nat.cast_one] at hk hr hq
  refine ⟨?_, ?_, ?_, ?_, ?_⟩
  · rw [hk, JSNum.divD_fin 1 3 (by norm_num), b1, JSNum.mulD_fin, b3]
  · rw [hr, JSNum.divD_fin 1 4 (by norm_num), b4, JSNum.mulD_fin, b5]
  · rw [hq, JSNum.divD_fin 1 3 (by norm_num), b1, JSNum.mulD_fin, b2,
      JSNum.divD_fin 1 4 (by norm_num), b4, JSNum.mulD_fin, b5,
      JSNum.divD_fin 25 100 (by norm_num), b6, JSNum.mulD_fin, b7, JSNum.addD_fin, b8,
      JSNum.round_fin,
      floor_add_half_eq _ 2 (by norm_num) (by norm_num), JSNum.max_fin, JSNum.min_fin]
    norm_num
  · rw [answerQualitySpecDouble, JSNum.divD_fin _ 100 (by norm_num), b9, JSNum.mulD_fin, b10,
      JSNum.divD_fin 25 100 (by norm_num), b6, JSNum.mulD_fin, b7, JSNum.addD_fin, b11,
      JSNum.clamp, JSNum.max_fin, JSNum.min_fin, JSNum.round_fin]
    have hc : Min.min (5 : ℚ) (Max.max 1 (6755399441055743 / 4503599627370496)) = 6755399441055743 / 4503599627370496 := by
      norm_num
    rw [hc, floor_add_half_eq _ 1 (by norm_num) (by norm_num)]
    norm_num
  · have h100 : (100 : ℚ) ≠ 0 := by norm_num
    simp only [answerQualitySpec, JSNum.div, JSNum.mul, JSNum.add, h100, if_false, JSNum.clamp,
      JSNum.max_fin, JSNum.min_fin, JSNum.round_fin]
    have hc : Min.min (5 : ℚ) (Max.max 1 (2345624805922133 / 70368744177664 / 100 * 3 + 25 / 100 * 2))
        = 2345624805922133 / 70368744177664 / 100 * 3 + 25 / 100 * 2 := by
      norm_num
    rw [hc, floor_add_half_eq _ 1 (by norm_num) (by norm_num)]
    norm_num

end QualityDoubleClaims2

section QualityDoubleClaims3

/-- C11 (counterexample): for seven of ten keywords and one of five sources the record has
`keywordCoverage = 70`, `retrievalAccuracy = 20` and the double sum `2.4999999999999996`, so
`answerQuality = 2`, while the formula gives `round(2.5) = 3`.  For one of three keywords and
one of four sources the sum is `1.5` and `answerQuality = 2`, while the formula on the fields
of the record, where `keywordCoverage` is the double `33.33333333333333`, gives `1`, in
doubles and exactly. -/
theorem evaluateRetrieval_answerQuality_differs_from_formula :
    ((evaluateRetrievalDouble id sevenOfTenTest oneSourceChunks
          "k0 k1 k2 k3 k4 k5 k6").answerQuality = JSNum.fin 2 ∧
        (evaluateRetrievalDouble id sevenOfTenTest oneSourceChunks
          "k0 k1 k2 k3 k4 k5 k6").keywordCoverage = JSNum.fin 70 ∧
        (evaluateRetrievalDouble id sevenOfTenTest oneSourceChunks
          "k0 k1 k2 k3 k4 k5 k6").retrievalAccuracy = JSNum.fin 20 ∧
        answerQualitySpec (JSNum.fin (70 : ℚ)) (JSNum.fin 20) = JSNum.fin 3) ∧
      ((evaluateRetrievalDouble id oneOfThreeTest oneSourceChunks "k0").answerQuality
          = JSNum.fin 2 ∧
        answerQualitySpecDouble
            (evaluateRetrievalDouble id oneOfThreeTest oneSourceChunks "k0").keywordCoverage
            (evaluateRetrievalDouble id oneOfThreeTest oneSourceChunks "k0").retrievalAccuracy
          = JSNum.fin 1 ∧
        answerQualitySpec
            (evaluateRetrievalDouble id oneOfThreeTest oneSourceChunks "k0").keywordCoverage
            (evaluateRetrievalDouble id oneOfThreeTest oneSourceChunks "k0").retrievalAccuracy
          = JSNum.fin 1) := by
  obtain ⟨ha1, ha2, ha3⟩ := evaluateRetrievalDouble_sevenOfTen
  obtain ⟨hb1, hb2, hb3, hb4, hb5⟩ := evaluateRetrievalDouble_oneOfThree
  refine ⟨⟨ha3, ha1, ha2, ?_⟩, ⟨hb3, ?_, ?_⟩⟩
  · have h100 : (100 : ℚ) ≠ 0 := by norm_num
    simp only [answerQualitySpec, JSNum.div, JSNum.mul, JSNum.add, h100, if_false, JSNum.clamp,
      JSNum.max_fin, JSNum.min_fin, JSNum.round_fin]
    have hc : Min.min (5 : ℚ) (Max.max 1 (70 / 100 * 3 + 20 / 100 * 2))
        = 70 / 100 * 3 + 20 / 100 * 2 := by
      norm_num
    rw [hc, floor_add_half_eq _ 3 (by norm_num) (by norm_num)]
    norm_num
  · rw [hb1, hb2]; exact hb4
  · rw [hb1, hb2]; exact hb5

/-- C11 (amended): for a test case with non-empty `expectedSources` and `expectedKeywords`,
`keywordCoverage` and `retrievalAccuracy` are the two ratios of found to expected, times `100`,
and `answerQuality`, which rounds first and clamps afterwards, equals `round(clamp(s, 1, 5))`
with halves rounded upward, where `s` is the sum
`(keywordsFound / |expectedKeywords|) * 3 + (retrievalAccuracy / 100) * 2` as the program
computes it, every operation rounded to a double; it is an integer between `1` and `5`. -/
theorem evaluateRetrievalDouble_answerQuality (toLowerCase : String → String)
    (test : TestCase) (chunks : List (ScoredChunk ℚ)) (answer : String)
    (hs : test.expectedSources ≠ []) (hk : test.expectedKeywords ≠ []) :
    (evaluateRetrievalDouble toLowerCase test chunks answer).keywordCoverage
        = JSNum.mulD
            (JSNum.divD
              (JSNum.fin ((test.expectedKeywords.filter fun keyword =>
                includesString (toLowerCase answer) (toLowerCase keyword)).length : ℚ))
              (JSNum.fin (test.expectedKeywords.length : ℚ)))
            (JSNum.fin 100) ∧
      (evaluateRetrievalDouble toLowerCase test chunks answer).retrievalAccuracy
        = JSNum.mulD
            (JSNum.divD
              (JSNum.fin ((test.expectedSources.filter fun source =>
                (chunks.map fun chunk => chunk.filename).contains source).length : ℚ))
              (JSNum.fin (test.expectedSources.length : ℚ)))
            (JSNum.fin 100) ∧
      (evaluateRetrievalDouble toLowerCase test chunks answer).answerQuality
        = JSNum.round (JSNum.clamp
            (JSNum.addD
              (JSNum.mulD
                (JSNum.divD
                  (JSNum.fin ((test.expectedKeywords.filter fun keyword =>
                    includesString (toLowerCase answer) (toLowerCase keyword)).length : ℚ))
                  (JSNum.fin (test.expectedKeywords.length : ℚ)))
                (JSNum.fin 3))
              (JSNum.mulD
                (JSNum.divD
                  (evaluateRetrievalDouble toLowerCase test chunks answer).retrievalAccuracy
                  (JSNum.fin 100))
                (JSNum.fin 2)))
            (JSNum.fin 1) (JSNum.fin 5)) ∧
      ∃ n : Int, 1 ≤ n ∧ n ≤ 5 ∧
        (evaluateRetrievalDouble toLowerCase test chunks answer).answerQuality
          = JSNum.fin (n : ℚ) := by
  obtain ⟨h1, h2, h3⟩ := evaluateRetrievalDouble_fields toLowerCase test chunks answer
  have hnk : (0 : ℚ) < (test.expectedKeywords.length : ℚ) := by
    exact_mod_cast List.length_pos.2 hk
  have hns : (0 : ℚ) < (test.expectedSources.length : ℚ) := by
    exact_mod_cast List.length_pos.2 hs
  have hcount : ∀ n : ℕ, JSNum.NonnegNum (JSNum.fin (n : ℚ)) :=
    fun n => Or.inr ⟨_, Nat.cast_nonneg n, rfl⟩
  have hra : JSNum.NonnegNum
      (evaluateRetrievalDouble toLowerCase test chunks answer).retrievalAccuracy := by
    rw [h2]
    exact ((hcount _).divD_pos _ hns).mulD_pos 100 (by norm_num)
  refine ⟨h1, h2, ?_, ?_⟩
  · rw [h3, min_max_round_eq_round_clamp_num]
  · rw [h3]
    apply min_max_round_range_of_nonneg
    exact JSNum.NonnegNum.addD (((hcount _).divD_pos _ hnk).mulD_pos 3 (by norm_num))
      ((hra.divD_pos 100 (by norm_num)).mulD_pos 2 (by norm_num))

/-- Witness for C11: one of three keywords and one of four sources. -/
theorem evaluateRetrievalDouble_answerQuality_witness :
    ∃ n : Int, 1 ≤ n ∧ n ≤ 5 ∧
      (evaluateRetrievalDouble id oneOfThreeTest oneSourceChunks "k0").answerQuality
        = JSNum.fin (n : ℚ) :=
  (evaluateRetrievalDouble_answerQuality id oneOfThreeTest oneSourceChunks "k0" (by decide)
    (by decide)).2.2.2

end QualityDoubleClaims3

section QualityDoubleClaims4

/-- Without expected keywords the ratio is `0 / 0` and the answer quality is `NaN`: the
hypothesis of non-empty lists cannot be dropped. -/
theorem evaluateRetrievalDouble_answerQuality_of_no_keywords (toLowerCase : String → String)
    (test : TestCase) (chunks : List (ScoredChunk ℚ)) (answer : String)
    (hk : test.expectedKeywords = []) :
    (evaluateRetrievalDouble toLowerCase test chunks answer).answerQuality = JSNum.nan := by
  obtain ⟨_, _, h3⟩ := evaluateRetrievalDouble_fields toLowerCase test chunks answer
  rw [h3, hk]
  have hdiv : JSNum.divD (JSNum.fin ((0 : ℕ) : ℚ)) (JSNum.fin ((0 : ℕ) : ℚ)) = JSNum.nan := by
    simp [JSNum.divD, JSNum.div, JSNum.toDouble]
  have hmul : JSNum.mulD JSNum.nan (JSNum.fin 3) = JSNum.nan := rfl
  have hadd : ∀ x : JSNum ℚ, JSNum.addD JSNum.nan x = JSNum.nan := by
    intro x
    rw [JSNum.addD, JSNum.add_nan_left]
    rfl
  simp only [List.filter_nil, List.length_nil, hdiv, hmul, hadd]
  rfl

end QualityDoubleClaims4

end RagSystem
